/-
  Verification of the Forced-Reset-Test master/slave watchdog
  (src/forced_reset_test_master.py, src/forced_reset_test_slave.py).

  Shallow embedding conventions:
  * The shared mutable state (`last_seen`, `reset_counts`) is an explicit
    `MasterState` record of association lists, threaded through each handler.
  * Timestamps (`time.time()`) are integers supplied by an `Env`; wall-clock
    formatting (`time.strftime`) is an uninterpreted string in the environment.
  * Network and file-system outcomes are oracles in the environment:
    the PLC connect/send/recv results, and the success of each file append.
    Each observable side effect is emitted as an `Event`.
  * JSON values are the inductive `Json` (numbers restricted to integers;
    the payloads this system produces and the spec discusses are integral).
    `pyDumps`/`pyLoads` embed `json.dumps(·, ensure_ascii=False)` and
    `json.loads`; `pyDumpsAscii` embeds the default `ensure_ascii=True`
    used by the slave's fallback.  The parser is fuel-bounded (fuel =
    input length + 1) and is slightly more lenient than `json.loads`
    (it accepts leading zeros and unescaped control characters); it does
    not accept fractional/exponent number forms, matching the integral
    value model.
  * Byte strings are `List Nat` of byte values; `encode("ascii","ignore")`
    drops characters above 127.
-/
import Mathlib

namespace FRT

/-! ## JSON value model -/

/-- A JSON structured value (numbers as integers). -/
inductive Json where
  | null
  | bool (b : Bool)
  | num (i : Int)
  | str (s : String)
  | arr (elems : List Json)
  | obj (pairs : List (String × Json))

/-- First-match key lookup in a JSON object (Python dicts have unique keys,
    so first-match agrees with dict indexing on every value this system builds). -/
def jsonField (v : Json) (key : String) : Option Json :=
  match v with
  | .obj pairs => go pairs
  | _ => none
where go : List (String × Json) → Option Json
  | [] => none
  | (k, x) :: rest => if k = key then some x else go rest

/-! ## Python dict operations (association lists, insertion-ordered) -/

/-- Python `d.get(k)` / `d[k]` lookup. -/
def dictGet {α : Type} (m : List (String × α)) (k : String) : Option α :=
  match m with
  | [] => none
  | (k', v) :: t => if k' = k then some v else dictGet t k

/-- Python `d.get(k, dflt)`. -/
def dictGetD {α : Type} (m : List (String × α)) (k : String) (dflt : α) : α :=
  match dictGet m k with
  | some v => v
  | none => dflt

/-- Python `d[k] = v`: replace the existing binding in place, else append. -/
def dictSet {α : Type} (m : List (String × α)) (k : String) (v : α) : List (String × α) :=
  match m with
  | [] => [(k, v)]
  | (k', v') :: t => if k' = k then (k, v) :: t else (k', v') :: dictSet t k v

/-! ## `json.dumps` (compact default separators `", "` and `": "`) -/

/-- Lowercase hexadecimal digit character for `n < 16`. -/
def hexDigitChar (n : Nat) : Char :=
  if n < 10 then Char.ofNat (48 + n) else Char.ofNat (87 + n)

/-- Four lowercase hex digits of `k < 0x10000` (the `\uXXXX` payload). -/
def hex4Chars (k : Nat) : List Char :=
  [hexDigitChar (k / 4096 % 16), hexDigitChar (k / 256 % 16),
   hexDigitChar (k / 16 % 16), hexDigitChar (k % 16)]

/-- Escaping of one character by `json.dumps` with `ensure_ascii=False`:
    quote, backslash, and the seven short escapes, `\u00XX` for other
    control characters, everything else verbatim. -/
def escSeq (c : Char) : List Char :=
  if c = '"' then ['\\', '"']
  else if c = '\\' then ['\\', '\\']
  else if c = '\n' then ['\\', 'n']
  else if c = '\r' then ['\\', 'r']
  else if c = '\t' then ['\\', 't']
  else if c.toNat = 8 then ['\\', 'b']
  else if c.toNat = 12 then ['\\', 'f']
  else if c.toNat < 32 then '\\' :: 'u' :: hex4Chars c.toNat
  else [c]

/-- Escaping of one character by `json.dumps` with the default `ensure_ascii=True`:
    additionally every character outside `0x20`–`0x7e` becomes `\uXXXX`
    (a surrogate pair above `0xFFFF`). -/
def escSeqAscii (c : Char) : List Char :=
  if c = '"' then ['\\', '"']
  else if c = '\\' then ['\\', '\\']
  else if c.toNat = 8 then ['\\', 'b']
  else if c = '\t' then ['\\', 't']
  else if c = '\n' then ['\\', 'n']
  else if c.toNat = 12 then ['\\', 'f']
  else if c = '\r' then ['\\', 'r']
  else if 32 ≤ c.toNat ∧ c.toNat ≤ 126 then [c]
  else if c.toNat < 65536 then '\\' :: 'u' :: hex4Chars c.toNat
  else
    ('\\' :: 'u' :: hex4Chars (55296 + (c.toNat - 65536) / 1024)) ++
    ('\\' :: 'u' :: hex4Chars (56320 + (c.toNat - 65536) % 1024))

/-- Decimal digits of `n`, most significant first, prepended to `acc`;
    structurally fuel-bounded so that it evaluates by kernel reduction. -/
def natCharsGo : Nat → Nat → List Char → List Char
  | 0, _, acc => acc
  | fuel + 1, n, acc =>
    if n < 10 then Char.ofNat (48 + n % 10) :: acc
    else natCharsGo fuel (n / 10) (Char.ofNat (48 + n % 10) :: acc)

/-- Decimal digit characters of `n`, most significant first
    (`n + 1` is always enough fuel, as `natChars_eq_spec` proves). -/
def natChars (n : Nat) : List Char := natCharsGo (n + 1) n []

/-- Recursion-theoretic twin of `natCharsGo` without the fuel, used by the
    correctness proofs. -/
def natCharsSpec (n : Nat) (acc : List Char) : List Char :=
  if n < 10 then Char.ofNat (48 + n % 10) :: acc
  else natCharsSpec (n / 10) (Char.ofNat (48 + n % 10) :: acc)
termination_by n
decreasing_by omega

/-- The characters `repr(i)` produces for a Python int. -/
def intChars (i : Int) : List Char :=
  (if i < 0 then ['-'] else []) ++ natChars i.natAbs

mutual
/-- Characters of `json.dumps(v)`, parametrized by the per-character escape. -/
def encVal (esc : Char → List Char) : Json → List Char
  | .null => ['n', 'u', 'l', 'l']
  | .bool b => if b then ['t', 'r', 'u', 'e'] else ['f', 'a', 'l', 's', 'e']
  | .num i => intChars i
  | .str s => '"' :: (s.data.flatMap esc ++ ['"'])
  | .arr [] => ['[', ']']
  | .arr (x :: xs) => '[' :: (encVal esc x ++ encItemsTail esc xs ++ [']'])
  | .obj [] => ['{', '}']
  | .obj (kv :: kvs) => '{' :: (encPair esc kv ++ encPairsTail esc kvs ++ ['}'])
def encItemsTail (esc : Char → List Char) : List Json → List Char
  | [] => []
  | x :: xs => ',' :: ' ' :: (encVal esc x ++ encItemsTail esc xs)
def encPair (esc : Char → List Char) : String × Json → List Char
  | (k, v) => '"' :: (k.data.flatMap esc ++ ['"', ':', ' ']) ++ encVal esc v
def encPairsTail (esc : Char → List Char) : List (String × Json) → List Char
  | [] => []
  | kv :: kvs => ',' :: ' ' :: (encPair esc kv ++ encPairsTail esc kvs)
end

/-- Embeds `json.dumps(v, ensure_ascii=False)` (master, line 109). -/
def pyDumps (v : Json) : String := ⟨encVal escSeq v⟩

/-- Embeds `json.dumps(v)` with the default `ensure_ascii=True` (slave, line 116). -/
def pyDumpsAscii (v : Json) : String := ⟨encVal escSeqAscii v⟩

/-! ## `json.loads` -/

/-- JSON whitespace (the only characters `json.loads` skips between tokens). -/
def isJsonWs (c : Char) : Bool := c = ' ' || c = '\t' || c = '\n' || c = '\r'

def skipWs : List Char → List Char
  | [] => []
  | c :: t => if isJsonWs c then skipWs t else c :: t

def isDigitCh (c : Char) : Bool := '0' ≤ c && c ≤ '9'

/-- Split off the maximal leading run of decimal digits. -/
def digitSpan : List Char → List Char × List Char
  | [] => ([], [])
  | c :: t =>
    if isDigitCh c then
      let (ds, r) := digitSpan t
      (c :: ds, r)
    else ([], c :: t)

/-- Value of a digit string, most significant first. -/
def digitsVal (ds : List Char) : Nat :=
  ds.foldl (fun a c => a * 10 + (c.toNat - 48)) 0

/-- Parse an integer literal (optional minus sign, then digits). -/
def parseInt : List Char → Option (Int × List Char)
  | '-' :: r =>
    match digitSpan r with
    | ([], _) => none
    | (ds, r2) => some (-(digitsVal ds : Int), r2)
  | cs =>
    match digitSpan cs with
    | ([], _) => none
    | (ds, r2) => some ((digitsVal ds : Int), r2)

def hexRead (c : Char) : Option Nat :=
  if '0' ≤ c ∧ c ≤ '9' then some (c.toNat - 48)
  else if 'a' ≤ c ∧ c ≤ 'f' then some (c.toNat - 87)
  else if 'A' ≤ c ∧ c ≤ 'F' then some (c.toNat - 55)
  else none

def shortUnescape (c : Char) : Option Char :=
  if c = '"' then some '"'
  else if c = '\\' then some '\\'
  else if c = '/' then some '/'
  else if c = 'b' then some (Char.ofNat 8)
  else if c = 'f' then some (Char.ofNat 12)
  else if c = 'n' then some '\n'
  else if c = 'r' then some '\r'
  else if c = 't' then some '\t'
  else none

/-- Parse a string body after the opening quote, unescaping as `json.loads` does. -/
def parseStringBody (acc : List Char) : List Char → Option (String × List Char)
  | '"' :: r => some (⟨acc.reverse⟩, r)
  | '\\' :: 'u' :: a :: b :: c :: d :: r =>
    match hexRead a, hexRead b, hexRead c, hexRead d with
    | some x, some y, some z, some w =>
      parseStringBody (Char.ofNat (((x * 16 + y) * 16 + z) * 16 + w) :: acc) r
    | _, _, _, _ => none
  | '\\' :: e :: r =>
    match shortUnescape e with
    | some ch => parseStringBody (ch :: acc) r
    | none => none
  | c :: r => parseStringBody (c :: acc) r
  | [] => none

mutual
/-- Parse one JSON value (fuel-bounded recursion). -/
def parseValue : Nat → List Char → Option (Json × List Char)
  | 0, _ => none
  | fuel + 1, cs =>
    match skipWs cs with
    | 'n' :: 'u' :: 'l' :: 'l' :: r => some (.null, r)
    | 't' :: 'r' :: 'u' :: 'e' :: r => some (.bool true, r)
    | 'f' :: 'a' :: 'l' :: 's' :: 'e' :: r => some (.bool false, r)
    | '"' :: r =>
      match parseStringBody [] r with
      | some (s, r') => some (.str s, r')
      | none => none
    | '[' :: r =>
      (match skipWs r with
       | [] => none
       | c :: r' =>
         if c = ']' then some (.arr [], r')
         else
           match parseItems fuel (c :: r') with
           | some (es, r'') => some (.arr es, r'')
           | none => none)
    | '{' :: r =>
      (match skipWs r with
       | [] => none
       | c :: r' =>
         if c = '}' then some (.obj [], r')
         else
           match parsePairs fuel (c :: r') with
           | some (ms, r'') => some (.obj ms, r'')
           | none => none)
    | cs' =>
      match parseInt cs' with
      | some (i, r') => some (.num i, r')
      | none => none
/-- Parse one-or-more comma-separated array elements up to the closing `]`. -/
def parseItems : Nat → List Char → Option (List Json × List Char)
  | 0, _ => none
  | fuel + 1, cs =>
    match parseValue fuel cs with
    | none => none
    | some (v, r) =>
      match skipWs r with
      | ',' :: r' =>
        (match parseItems fuel (skipWs r') with
         | some (vs, r'') => some (v :: vs, r'')
         | none => none)
      | ']' :: r' => some ([v], r')
      | _ => none
/-- Parse one-or-more `"key": value` members up to the closing `}`. -/
def parsePairs : Nat → List Char → Option (List (String × Json) × List Char)
  | 0, _ => none
  | fuel + 1, cs =>
    match skipWs cs with
    | '"' :: r =>
      (match parseStringBody [] r with
       | none => none
       | some (k, r1) =>
         match skipWs r1 with
         | ':' :: r2 =>
           (match parseValue fuel (skipWs r2) with
            | none => none
            | some (v, r3) =>
              match skipWs r3 with
              | ',' :: r4 =>
                (match parsePairs fuel (skipWs r4) with
                 | some (ms, r5) => some ((k, v) :: ms, r5)
                 | none => none)
              | '}' :: r4 => some ([(k, v)], r4)
              | _ => none)
         | _ => none)
    | _ => none
end

/-- A remainder that cannot extend a parsed integer literal: empty or starting
    with a non-digit. -/
def notDigitHead : List Char → Bool
  | [] => true
  | c :: _ => !isDigitCh c

/-- Embeds `json.loads`: parse a complete document, requiring only whitespace after it. -/
def pyLoads (s : String) : Option Json :=
  match parseValue (s.data.length + 1) s.data with
  | some (v, r) => if skipWs r = [] then some v else none
  | none => none

/-! ## Master configuration (lines 12–38 of `forced_reset_test_master.py`) -/

/-- The static slave→relay registry (`SLAVE_TO_RELAY`, lines 21–28). -/
def SLAVE_TO_RELAY : List (String × String) :=
  [("192.168.0.100", "R500"), ("192.168.0.101", "R501"), ("192.168.0.102", "R502"),
   ("192.168.0.103", "R503"), ("192.168.0.104", "R504"), ("192.168.0.105", "R505")]

/-- The constant `HEARTBEAT_TIMEOUT = 180` seconds (line 15). -/
def HEARTBEAT_TIMEOUT : Int := 180

/-- The command text `PLC_CMD_TEMPLATE.format(relay=relay)` (lines 19 and 61). -/
def plcCmdString (relay : String) : String := "RS " ++ relay ++ "\r\n"

/-- Embeds `.encode("ascii", "ignore")` (line 61): characters above 127 are dropped;
    the rest map to their byte values. -/
def asciiIgnoreEncode (s : String) : List Nat :=
  (s.data.filter (fun c => c.toNat ≤ 127)).map Char.toNat

/-- The shared mutable state: `last_seen` (slave ip → epoch seconds, line 37)
    and `reset_counts` (relay → count, line 38). -/
structure MasterState where
  last_seen : List (String × Int)
  reset_counts : List (String × Nat)
deriving DecidableEq

/-- Startup state: `reset_counts = {relay: 0 for relay in SLAVE_TO_RELAY.values()}` (line 38),
    empty `last_seen` (line 37). -/
def initialState : MasterState :=
  { last_seen := [],
    reset_counts := SLAVE_TO_RELAY.map (fun e => (e.2, 0)) }

/-- Outcome of the 1-second `recv` wait inside `send_plc_reset` (lines 69–73):
    some reply bytes, a `socket.timeout` (swallowed), or another exception
    (propagates to the outer handler). -/
inductive RecvOutcome where
  | reply (bs : List Nat)
  | timedOut
  | failed
deriving DecidableEq

/-- Network oracle for one `send_plc_reset` call. -/
structure PlcNet where
  connect_ok : Bool
  send_ok : Bool
  recv : RecvOutcome
deriving DecidableEq

/-- Result of one `send_plc_reset` call: the boolean it returns and the bytes
    it sent (none if the failure happened before/at `sendall`). -/
structure PlcCall where
  ok : Bool
  sent : Option (List Nat)
deriving DecidableEq

/-- Embeds `send_plc_reset(relay)` (lines 59–83): connect (5 s timeout), send the
    formatted command, wait up to 1 s for a reply (a timeout there is passed
    over); any other exception anywhere is caught, logged, and turned into
    `False`. Total by construction — nothing escapes its boundary. -/
def send_plc_reset (net : PlcNet) (relay : String) : PlcCall :=
  let cmd := asciiIgnoreEncode (plcCmdString relay)
  if net.connect_ok = false then { ok := false, sent := none }
  else if net.send_ok = false then { ok := false, sent := none }
  else
    match net.recv with
    | .reply _ => { ok := true, sent := some cmd }
    | .timedOut => { ok := true, sent := some cmd }
    | .failed => { ok := false, sent := some cmd }

/-! ## Events and environment -/

/-- Observable side effects besides operational-log lines (which only mirror
    these events and errors). -/
inductive Event where
  | actuation (relay : String) (ok : Bool)
  | countsAppend (text : String) (ok : Bool)
  | telemetryWrite (relay : String) (record : Json) (ok : Bool)

/-- Does this event attempt an actuation of `relay`? -/
def Event.isActuationOf (relay : String) : Event → Bool
  | .actuation r _ => r = relay
  | _ => false

/-- Is this event an append to the reset-counts file? -/
def Event.isCountsAppend : Event → Bool
  | .countsAppend _ _ => true
  | _ => false

/-- Is this event a telemetry-file write attempt? -/
def Event.isTelemetryWrite : Event → Bool
  | .telemetryWrite _ _ _ => true
  | _ => false

/-- Number of actuation attempts for `relay` in an event trace. -/
def actuationCount (relay : String) (evs : List Event) : Nat :=
  (evs.filter (Event.isActuationOf relay)).length

/-- Environment for handling a single message: the `time.time()` value, the
    formatted `time.strftime` receipt string, the PLC network oracle, and the
    outcomes of the two file appends. -/
structure Env where
  now : Int
  recvTime : String
  plc : PlcNet
  countsAppendOk : Bool
  telemetryAppendOk : Bool

/-! ## Telemetry recording (`handle_smart_message`, lines 88–114) -/

/-- The record dict built at lines 102–108, in insertion order. -/
def telemetryRecord (recvTime slave_ip relay : String) (count : Nat) (smart : Json) : Json :=
  .obj [("recv_time", .str recvTime), ("slave_ip", .str slave_ip), ("relay", .str relay),
        ("reset_count", .num (count : Int)), ("smart", smart)]

/-- Embeds `handle_smart_message(slave_ip, smart_obj)` (lines 88–114): unknown senders
    are logged and produce no write; otherwise one JSON line is appended to the
    relay's telemetry file (append failure is logged and swallowed; the
    `os.makedirs` attempt is log-only and not an observable event). -/
def handle_smart_message (env : Env) (st : MasterState) (slave_ip : String) (smart_obj : Json) :
    MasterState × List Event :=
  match dictGet SLAVE_TO_RELAY slave_ip with
  | none => (st, [])
  | some relay =>
    let record := telemetryRecord env.recvTime slave_ip relay
      (dictGetD st.reset_counts relay 0) smart_obj
    (st, [.telemetryWrite relay record env.telemetryAppendOk])

/-! ## Connection handler (`handle_client`, lines 119–174) -/

/-- The `str.isspace` characters removed by `str.strip()` (the ASCII whitespace
    set; the wire protocol is ASCII/UTF-8 text whose only whitespace in
    practice is spaces, tabs and `\r`). -/
def pyIsSpace (c : Char) : Bool :=
  c = ' ' || c = '\t' || c = '\n' || c = '\r' || c.toNat = 11 || c.toNat = 12

/-- Embeds `line_bytes.decode(...).strip()` (line 133): remove leading and trailing
    whitespace. -/
def pyStrip (s : String) : String :=
  ⟨((s.data.dropWhile pyIsSpace).reverse.dropWhile pyIsSpace).reverse⟩

/-- Python `str.startswith` (character-wise). -/
def pyStartsWith (s pre : String) : Bool := pre.data.isPrefixOf s.data

/-- Character slicing `s[n:]`. -/
def pyDrop (s : String) (n : Nat) : String := ⟨s.data.drop n⟩

/-- The duplicated post-success block (lines 156–161 in `handle_client` and the
    identical lines 207–212 in `monitor_loop`): increment the in-memory counter,
    then attempt to append `f"{relay} {reset_counts[relay]}\n"` (append failure
    is logged and swallowed, after the increment). -/
def recordSuccessfulReset (appendOk : Bool) (st : MasterState) (relay : String) :
    MasterState × Event :=
  let n := dictGetD st.reset_counts relay 0 + 1
  ({ st with reset_counts := dictSet st.reset_counts relay n },
   .countsAppend (relay ++ " " ++ toString n ++ "\n") appendOk)

/-- One iteration of the per-line loop in `handle_client` (lines 130–166):
    strip, skip blank lines, then classify as SMART / RESET / heartbeat.
    Every non-blank line ends by recording `now` as the sender's last-seen. -/
def processLine (env : Env) (slave_ip : String) (st : MasterState) (rawLine : String) :
    MasterState × List Event :=
  let line := pyStrip rawLine
  if line = "" then (st, [])
  else if pyStartsWith line "SMART " then
    let json_part := pyDrop line 6
    let (st1, evs) : MasterState × List Event :=
      match pyLoads json_part with
      | some obj => handle_smart_message env st slave_ip obj
      | none => (st, [])
    ({ st1 with last_seen := dictSet st1.last_seen slave_ip env.now }, evs)
  else if pyStartsWith line "RESET" then
    let (st1, evs) : MasterState × List Event :=
      match dictGet SLAVE_TO_RELAY slave_ip with
      | some relay =>
        if relay = "" then (st, [])   -- `if relay:` — Python truthiness
        else
          let call := send_plc_reset env.plc relay
          if call.ok then
            let (st', ev) := recordSuccessfulReset env.countsAppendOk st relay
            (st', [.actuation relay true, ev])
          else (st, [.actuation relay false])
      | none => (st, [])
    ({ st1 with last_seen := dictSet st1.last_seen slave_ip env.now }, evs)
  else
    ({ st with last_seen := dictSet st.last_seen slave_ip env.now }, [])

/-- Successive complete lines on one connection, each with its own moment's
    environment; the handler keeps reading after any single line's handling. -/
def processLines (slave_ip : String) (st : MasterState) :
    List (Env × String) → MasterState × List Event
  | [] => (st, [])
  | (env, line) :: rest =>
    let (st1, evs1) := processLine env slave_ip st line
    let (st2, evs2) := processLines slave_ip st1 rest
    (st2, evs1 ++ evs2)

/-! ## Liveness monitor (`monitor_loop`, lines 196–213) -/

/-- The staleness test of lines 200–203 for one slave ip. -/
def isStale (st : MasterState) (now : Int) (ip : String) : Bool :=
  match dictGet st.last_seen ip with
  | none => false
  | some last => now - last > HEARTBEAT_TIMEOUT

/-- The body of the registry loop for one `(ip, relay)` entry (lines 199–212):
    skip slaves never seen; on timeout send a reset and, on success, run the
    shared increment-and-append block. -/
def monitorStep (net : String → PlcNet) (appendOk : String → Bool) (now : Int)
    (st : MasterState) (entry : String × String) : MasterState × List Event :=
  match dictGet st.last_seen entry.1 with
  | none => (st, [])
  | some last =>
    if now - last > HEARTBEAT_TIMEOUT then
      let call := send_plc_reset (net entry.1) entry.2
      if call.ok then
        let (st', ev) := recordSuccessfulReset (appendOk entry.1) st entry.2
        (st', [.actuation entry.2 true, ev])
      else (st, [.actuation entry.2 false])
    else (st, [])

/-- Fold `monitorStep` over a registry fragment in order. -/
def monitorGo (net : String → PlcNet) (appendOk : String → Bool) (now : Int)
    (st : MasterState) : List (String × String) → MasterState × List Event
  | [] => (st, [])
  | e :: t =>
    let (st1, evs1) := monitorStep net appendOk now st e
    let (st2, evs2) := monitorGo net appendOk now st1 t
    (st2, evs1 ++ evs2)

/-- One tick of `monitor_loop` (lines 198–212): a single `now`, then the loop
    over every registry entry in insertion order. -/
def monitorTick (net : String → PlcNet) (appendOk : String → Bool) (now : Int)
    (st : MasterState) : MasterState × List Event :=
  monitorGo net appendOk now st SLAVE_TO_RELAY

/-! ## Slave agent (`forced_reset_test_slave.py`) -/

/-- Embeds `send_initial_smart` (slave lines 103–118), given that `get_smart_info()`
    returned the string `info`: if `info` itself parses as JSON the payload is
    `json.dumps(obj, ensure_ascii=False)`; otherwise the raw text is wrapped as
    `json.dumps({"text": info})` (default `ensure_ascii=True`). -/
def initial_smart_message (info : String) : String :=
  match pyLoads info with
  | some obj => "SMART " ++ pyDumps obj ++ "\n"
  | none => "SMART " ++ pyDumpsAscii (.obj [("text", .str info)]) ++ "\n"

/-! ## Interleaving model of the unsynchronized counter increment

`reset_counts[relay] = reset_counts.get(relay, 0) + 1` (lines 156 and 207) is
executed by connection-handler threads and the monitor thread with no lock.
Under CPython threading the statement is two separately scheduled accesses to
the shared dict: the read `reset_counts.get(relay, 0)` and the store of
read + 1.  Each in-flight increment is a thread that is about to read, or has
read `v` and is about to write `v + 1`, or is done. -/

inductive ThreadPhase where
  | toRead
  | toWrite (v : Nat)
  | done
deriving DecidableEq

/-- Run the thread at index `i` for one step against the shared counter. -/
def raceStepAt (c : Nat) (ths : List ThreadPhase) (i : Nat) : Nat × List ThreadPhase :=
  match ths.get? i with
  | none => (c, ths)
  | some ph =>
    match ph with
    | .toRead => (c, ths.set i (.toWrite c))
    | .toWrite v => (v + 1, ths.set i .done)
    | .done => (c, ths)

/-- Final counter value after running a schedule of thread indices. -/
def raceRun (c : Nat) (ths : List ThreadPhase) : List Nat → Nat
  | [] => c
  | i :: rest =>
    let (c', ths') := raceStepAt c ths i
    raceRun c' ths' rest

/-! # Proofs

## Association-list and `strip` facts -/

theorem dictGet_dictSet_self {α : Type} (m : List (String × α)) (k : String) (v : α) :
    dictGet (dictSet m k v) k = some v := by
  induction m with
  | nil => simp [dictGet, dictSet]
  | cons h t ih =>
    obtain ⟨k', v'⟩ := h
    by_cases hk : k' = k
    · simp [dictGet, dictSet, hk]
    · simp [dictGet, dictSet, hk, ih]

theorem dictGet_dictSet_other {α : Type} (m : List (String × α)) (k k' : String) (v : α)
    (hne : k ≠ k') : dictGet (dictSet m k v) k' = dictGet m k' := by
  induction m with
  | nil => simp [dictGet, dictSet, hne]
  | cons h t ih =>
    obtain ⟨k1, v1⟩ := h
    by_cases hk : k1 = k
    · subst hk
      simp [dictGet, dictSet, hne]
    · simp [dictGet, dictSet, hk, ih]

theorem dictGetD_dictSet_self {α : Type} (m : List (String × α)) (k : String) (v d : α) :
    dictGetD (dictSet m k v) k d = v := by
  simp [dictGetD, dictGet_dictSet_self]

theorem dropWhile_dropWhile {α : Type} (p : α → Bool) (l : List α) :
    (l.dropWhile p).dropWhile p = l.dropWhile p := by
  induction l with
  | nil => simp
  | cons a t ih =>
    by_cases h : p a
    · simp [List.dropWhile_cons, h, ih]
    · simp [List.dropWhile_cons, h]

theorem dropWhile_fix_of_cons {α : Type} {p : α → Bool} {c : α} {t : List α}
    (h : p c = false) : (c :: t).dropWhile p = c :: t := by
  simp [List.dropWhile_cons, h]

/-- The head of a list fixed by `dropWhile` fails the predicate. -/
theorem head_fails_of_dropWhile_fix {α : Type} {p : α → Bool} {c : α} {t : List α}
    (h : (c :: t).dropWhile p = c :: t) : p c = false := by
  by_contra hc
  rw [List.dropWhile_cons, if_pos (by simpa using hc)] at h
  have hle := (List.dropWhile_suffix (l := t) p).sublist.length_le
  have := congrArg List.length h
  simp only [List.length_cons] at this
  omega

/-- Trailing-whitespace removal after leading-whitespace removal leaves a list
    whose `dropWhile` is again the identity. -/
theorem dropWhile_fix_rstrip {α : Type} (p : α → Bool) (a : List α)
    (ha : a.dropWhile p = a) :
    ((a.reverse.dropWhile p).reverse).dropWhile p = (a.reverse.dropWhile p).reverse := by
  have hsplit : a = (a.reverse.dropWhile p).reverse ++ (a.reverse.takeWhile p).reverse := by
    have h0 : a.reverse.takeWhile p ++ a.reverse.dropWhile p = a.reverse :=
      List.takeWhile_append_dropWhile p a.reverse
    calc a = a.reverse.reverse := (List.reverse_reverse a).symm
    _ = (a.reverse.takeWhile p ++ a.reverse.dropWhile p).reverse := by rw [h0]
    _ = (a.reverse.dropWhile p).reverse ++ (a.reverse.takeWhile p).reverse := by
          rw [List.reverse_append]
  cases hcb : (a.reverse.dropWhile p).reverse with
  | nil => simp
  | cons c t =>
    have hhead : p c = false := by
      apply head_fails_of_dropWhile_fix (t := t ++ (a.reverse.takeWhile p).reverse)
      have hac : a = c :: (t ++ (a.reverse.takeWhile p).reverse) := by
        conv_lhs => rw [hsplit, hcb]
        simp
      rw [← hac]
      exact ha
    exact dropWhile_fix_of_cons hhead

/-- Python `str.strip()` is idempotent. -/
theorem pyStrip_idem (s : String) : pyStrip (pyStrip s) = pyStrip s := by
  have hfixa : (s.data.dropWhile pyIsSpace).dropWhile pyIsSpace
      = s.data.dropWhile pyIsSpace := dropWhile_dropWhile pyIsSpace s.data
  have hfixb := dropWhile_fix_rstrip pyIsSpace (s.data.dropWhile pyIsSpace) hfixa
  show pyStrip ⟨(((s.data.dropWhile pyIsSpace).reverse.dropWhile pyIsSpace)).reverse⟩
      = pyStrip s
  unfold pyStrip
  rw [show (String.mk ((((s.data.dropWhile pyIsSpace).reverse.dropWhile pyIsSpace)).reverse)).data
      = (((s.data.dropWhile pyIsSpace).reverse.dropWhile pyIsSpace)).reverse from rfl]
  rw [hfixb, List.reverse_reverse, dropWhile_dropWhile]

/-! ## Decimal digit facts -/

theorem digitChar_spec (k : Nat) (hk : k < 10) :
    (Char.ofNat (48 + k)).toNat - 48 = k ∧ isDigitCh (Char.ofNat (48 + k)) = true := by
  interval_cases k <;> exact ⟨by decide, by decide⟩

theorem natCharsSpec_acc (n : Nat) : ∀ acc : List Char,
    natCharsSpec n acc = natCharsSpec n [] ++ acc := by
  induction n using Nat.strongRecOn with
  | _ n ih =>
    intro acc
    rw [natCharsSpec.eq_def]
    rw [natCharsSpec.eq_def n ([] : List Char)]
    by_cases h : n < 10
    · simp [h]
    · simp only [if_neg h]
      rw [ih (n / 10) (by omega), ih (n / 10) (by omega) [Char.ofNat (48 + n % 10)]]
      simp

theorem natCharsSpec_last (n : Nat) :
    natCharsSpec n [] = (if n < 10 then [] else natCharsSpec (n / 10) [])
      ++ [Char.ofNat (48 + n % 10)] := by
  rw [natCharsSpec.eq_def]
  by_cases h : n < 10
  · simp [h]
  · simp only [if_neg h]
    exact natCharsSpec_acc (n / 10) [Char.ofNat (48 + n % 10)]

theorem natCharsSpec_ne_nil (n : Nat) : natCharsSpec n [] ≠ [] := by
  rw [natCharsSpec_last]; simp

theorem natCharsSpec_digits (n : Nat) : ∀ c ∈ natCharsSpec n [], isDigitCh c = true := by
  induction n using Nat.strongRecOn with
  | _ n ih =>
    rw [natCharsSpec_last]
    intro c hc
    rcases List.mem_append.mp hc with h | h
    · by_cases h10 : n < 10
      · simp [h10] at h
      · exact ih (n / 10) (by omega) c (by simpa [h10] using h)
    · rw [List.mem_singleton] at h
      subst h
      exact (digitChar_spec (n % 10) (Nat.mod_lt _ (by omega))).2

theorem digitsVal_append_one (xs : List Char) (c : Char) :
    digitsVal (xs ++ [c]) = digitsVal xs * 10 + (c.toNat - 48) := by
  simp [digitsVal, List.foldl_append]

theorem natCharsSpec_val (n : Nat) : digitsVal (natCharsSpec n []) = n := by
  induction n using Nat.strongRecOn with
  | _ n ih =>
    rw [natCharsSpec_last, digitsVal_append_one]
    have hd := (digitChar_spec (n % 10) (Nat.mod_lt _ (by omega))).1
    by_cases h : n < 10
    · simp only [if_pos h]
      simp [digitsVal, hd]
      omega
    · simp only [if_neg h]
      rw [ih (n / 10) (by omega), hd]
      omega

theorem natCharsGo_eq_spec : ∀ (fuel n : Nat) (acc : List Char),
    0 < fuel → n < 10 ^ fuel → natCharsGo fuel n acc = natCharsSpec n acc := by
  intro fuel
  induction fuel with
  | zero => omega
  | succ f ih =>
    intro n acc _ hlt
    rw [natCharsGo, natCharsSpec.eq_def]
    by_cases h : n < 10
    · simp [h]
    · simp only [if_neg h]
      have hdiv : n / 10 < 10 ^ f := by
        have hps : 10 ^ (f + 1) = 10 ^ f * 10 := pow_succ 10 f
        have := Nat.div_lt_of_lt_mul (by omega : n < 10 ^ f * 10)
        omega
      have hfpos : 0 < f := by
        by_contra hf
        have : f = 0 := by omega
        subst this
        simp at hdiv
        omega
      exact ih (n / 10) _ hfpos hdiv

theorem natChars_eq_spec (n : Nat) : natChars n = natCharsSpec n [] := by
  apply natCharsGo_eq_spec (n + 1) n [] (by omega)
  calc n < 10 ^ n := Nat.lt_pow_self (by norm_num) n
  _ ≤ 10 ^ (n + 1) := Nat.pow_le_pow_right (by omega) (by omega)

theorem natChars_ne_nil (n : Nat) : natChars n ≠ [] := by
  rw [natChars_eq_spec]; exact natCharsSpec_ne_nil n

theorem natChars_digits (n : Nat) : ∀ c ∈ natChars n, isDigitCh c = true := by
  rw [natChars_eq_spec]; exact natCharsSpec_digits n

theorem natChars_val (n : Nat) : digitsVal (natChars n) = n := by
  rw [natChars_eq_spec]; exact natCharsSpec_val n

theorem natChars_head (n : Nat) :
    ∃ c t, natChars n = c :: t ∧ isDigitCh c = true := by
  cases h : natChars n with
  | nil => exact absurd h (natChars_ne_nil n)
  | cons c t =>
    exact ⟨c, t, rfl, natChars_digits n c (h ▸ List.mem_cons_self c t)⟩

/-! ## Digit-span and integer-literal parsing -/

theorem digitSpan_stop {cs : List Char} (h : notDigitHead cs = true) :
    digitSpan cs = ([], cs) := by
  cases cs with
  | nil => rfl
  | cons c t =>
    simp only [notDigitHead, Bool.not_eq_true'] at h
    simp [digitSpan, h]

theorem digitSpan_run (ds : List Char) (hds : ∀ c ∈ ds, isDigitCh c = true)
    (rest : List Char) (hr : notDigitHead rest = true) :
    digitSpan (ds ++ rest) = (ds, rest) := by
  induction ds with
  | nil => simpa using digitSpan_stop hr
  | cons c t ih =>
    have hc : isDigitCh c = true := hds c (List.mem_cons_self c t)
    have ht := ih (fun x hx => hds x (List.mem_cons_of_mem c hx))
    simp [digitSpan, hc, ht]

theorem digit_not_minus {c : Char} (h : isDigitCh c = true) : c ≠ '-' := by
  intro he; subst he; exact absurd h (by decide)

theorem parseInt_intChars (i : Int) (rest : List Char) (hr : notDigitHead rest = true) :
    parseInt (intChars i ++ rest) = some (i, rest) := by
  have hspan := digitSpan_run (natChars i.natAbs) (natChars_digits i.natAbs) rest hr
  by_cases hi : i < 0
  · have harg : intChars i ++ rest = '-' :: (natChars i.natAbs ++ rest) := by
      simp [intChars, hi]
    rw [harg]
    simp only [parseInt, hspan]
    cases hnc : natChars i.natAbs with
    | nil => exact absurd hnc (natChars_ne_nil i.natAbs)
    | cons c t =>
      rw [hnc] at hspan
      simp only [parseInt, hspan]
      have := natChars_val i.natAbs
      rw [hnc] at this
      rw [this]
      congr 1
      congr 1
      omega
  · obtain ⟨c, t, hct, hcd⟩ := natChars_head i.natAbs
    have harg : intChars i ++ rest = c :: (t ++ rest) := by
      simp [intChars, hi, hct]
    have hcm : c ≠ '-' := digit_not_minus hcd
    rw [hct] at hspan
    simp only [List.cons_append] at hspan
    have hv := natChars_val i.natAbs
    rw [hct] at hv
    rw [harg, parseInt.eq_def]
    split
    · rename_i r heq
      rw [List.cons.injEq] at heq
      exact absurd heq.1 hcm
    · rw [hspan]
      show some ((digitsVal (c :: t) : Int), rest) = some (i, rest)
      rw [hv]
      congr 2
      omega

/-! ## String escape round-trip -/

theorem hexRead_hexDigitChar (d : Nat) (h : d < 16) : hexRead (hexDigitChar d) = some d := by
  interval_cases d <;> decide

theorem parseStringBody_esc (c : Char) (acc rest : List Char) :
    parseStringBody acc (escSeq c ++ rest) = parseStringBody (c :: acc) rest := by
  by_cases h1 : c = '"'
  · subst h1; rfl
  by_cases h2 : c = '\\'
  · subst h2; rfl
  by_cases h3 : c = '\n'
  · subst h3; rfl
  by_cases h4 : c = '\r'
  · subst h4; rfl
  by_cases h5 : c = '\t'
  · subst h5; rfl
  by_cases h6 : c.toNat = 8
  · have : c = Char.ofNat 8 := by rw [← h6, Char.ofNat_toNat]
    subst this; rfl
  by_cases h7 : c.toNat = 12
  · have : c = Char.ofNat 12 := by rw [← h7, Char.ofNat_toNat]
    subst this; rfl
  by_cases h8 : c.toNat < 32
  · have hesc : escSeq c = '\\' :: 'u' :: hex4Chars c.toNat := by
      simp [escSeq, h1, h2, h3, h4, h5, h6, h7, h8]
    rw [hesc]
    show parseStringBody acc
        ('\\' :: 'u' :: hexDigitChar (c.toNat / 4096 % 16) :: hexDigitChar (c.toNat / 256 % 16)
          :: hexDigitChar (c.toNat / 16 % 16) :: hexDigitChar (c.toNat % 16) :: rest)
      = parseStringBody (c :: acc) rest
    have hm : ∀ k : Nat, k % 16 < 16 := fun k => Nat.mod_lt _ (by omega)
    rw [parseStringBody]
    rw [hexRead_hexDigitChar _ (hm _), hexRead_hexDigitChar _ (hm _),
        hexRead_hexDigitChar _ (hm _), hexRead_hexDigitChar _ (hm _)]
    have harith : ((c.toNat / 4096 % 16 * 16 + c.toNat / 256 % 16) * 16 + c.toNat / 16 % 16) * 16
        + c.toNat % 16 = c.toNat := by omega
    simp only [harith, Char.ofNat_toNat]
  · have hesc : escSeq c = [c] := by
      simp [escSeq, h1, h2, h3, h4, h5, h6, h7, h8]
    rw [hesc]
    rw [parseStringBody.eq_def]
    simp only [List.cons_append, List.nil_append]
    simp [h1, h2]

theorem parseStringBody_flat (l : List Char) : ∀ acc rest : List Char,
    parseStringBody acc (l.flatMap escSeq ++ '"' :: rest) = some (⟨acc.reverse ++ l⟩, rest) := by
  induction l with
  | nil =>
    intro acc rest
    simp [parseStringBody]
  | cons c cs ih =>
    intro acc rest
    rw [List.flatMap_cons, List.append_assoc, parseStringBody_esc, ih]
    simp

theorem parseStr_enc (s : String) (rest : List Char) :
    parseStringBody [] (s.data.flatMap escSeq ++ '"' :: rest) = some (s, rest) := by
  rw [parseStringBody_flat]
  rfl

/-! ## Heads of encoded values, whitespace transparency -/

theorem digit_not_ws {c : Char} (h : isDigitCh c = true) : isJsonWs c = false := by
  cases hw : isJsonWs c with
  | false => rfl
  | true =>
    exfalso
    simp only [isJsonWs, Bool.or_eq_true, decide_eq_true_eq] at hw
    rcases hw with ((h1 | h1) | h1) | h1 <;> (subst h1; exact absurd h (by decide))

theorem digit_not_open {c : Char} (h : isDigitCh c = true) :
    c ≠ 'n' ∧ c ≠ 't' ∧ c ≠ 'f' ∧ c ≠ '"' ∧ c ≠ '[' ∧ c ≠ '{' ∧ c ≠ ']' ∧ c ≠ '}' := by
  refine ⟨?_, ?_, ?_, ?_, ?_, ?_, ?_, ?_⟩ <;> (intro he; subst he; exact absurd h (by decide))

theorem intChars_head (i : Int) :
    ∃ c t, intChars i = c :: t ∧ (c = '-' ∨ isDigitCh c = true) := by
  by_cases hi : i < 0
  · exact ⟨'-', natChars i.natAbs, by simp [intChars, hi], Or.inl rfl⟩
  · obtain ⟨c, t, hct, hcd⟩ := natChars_head i.natAbs
    exact ⟨c, t, by simp [intChars, hi, hct], Or.inr hcd⟩

theorem encVal_head (v : Json) :
    ∃ c t, encVal escSeq v = c :: t ∧ isJsonWs c = false ∧ c ≠ ']' ∧ c ≠ '}' := by
  cases v with
  | num i =>
    obtain ⟨c, t, hct, hc⟩ := intChars_head i
    have henc : encVal escSeq (.num i) = c :: t := hct
    refine ⟨c, t, henc, ?_, ?_, ?_⟩
    · rcases hc with hc | hc
      · subst hc; decide
      · exact digit_not_ws hc
    · rcases hc with hc | hc
      · subst hc; decide
      · exact (digit_not_open hc).2.2.2.2.2.2.1
    · rcases hc with hc | hc
      · subst hc; decide
      · exact (digit_not_open hc).2.2.2.2.2.2.2
  | null => exact ⟨_, _, rfl, by decide, by decide, by decide⟩
  | bool b => cases b <;> exact ⟨_, _, rfl, by decide, by decide, by decide⟩
  | str s => exact ⟨_, _, rfl, by decide, by decide, by decide⟩
  | arr es => cases es <;> exact ⟨_, _, rfl, by decide, by decide, by decide⟩
  | obj ps => cases ps <;> exact ⟨_, _, rfl, by decide, by decide, by decide⟩

theorem skipWs_cons_false {c : Char} (t : List Char) (h : isJsonWs c = false) :
    skipWs (c :: t) = c :: t := by
  simp [skipWs, h]

theorem skipWs_space (l : List Char) : skipWs (' ' :: l) = skipWs l := rfl

theorem skipWs_encVal (v : Json) (x : List Char) :
    skipWs (encVal escSeq v ++ x) = encVal escSeq v ++ x := by
  obtain ⟨c, t, hct, hws, _, _⟩ := encVal_head v
  rw [hct, List.cons_append]
  exact skipWs_cons_false _ hws

/-! ## One-step reductions of the parser on shaped input -/

theorem parseValue_quote (fuel : Nat) (r : List Char) :
    parseValue (fuel + 1) ('"' :: r)
      = (match parseStringBody [] r with
         | some (s, r') => some (.str s, r')
         | none => none) := rfl

theorem parseValue_bracketStep (fuel : Nat) (r : List Char) :
    parseValue (fuel + 1) ('[' :: r)
      = (match skipWs r with
         | [] => none
         | c :: r' =>
           if c = ']' then some (.arr [], r')
           else
             match parseItems fuel (c :: r') with
             | some (es, r'') => some (.arr es, r'')
             | none => none) := rfl

theorem parseValue_braceStep (fuel : Nat) (r : List Char) :
    parseValue (fuel + 1) ('{' :: r)
      = (match skipWs r with
         | [] => none
         | c :: r' =>
           if c = '}' then some (.obj [], r')
           else
             match parsePairs fuel (c :: r') with
             | some (ms, r'') => some (.obj ms, r'')
             | none => none) := rfl

theorem parseItems_step (fuel : Nat) (cs : List Char) :
    parseItems (fuel + 1) cs
      = (match parseValue fuel cs with
         | none => none
         | some (v, r) =>
           match skipWs r with
           | ',' :: r' =>
             (match parseItems fuel (skipWs r') with
              | some (vs, r'') => some (v :: vs, r'')
              | none => none)
           | ']' :: r' => some ([v], r')
           | _ => none) := rfl

theorem parsePairs_step (fuel : Nat) (cs : List Char) :
    parsePairs (fuel + 1) cs
      = (match skipWs cs with
         | '"' :: r =>
           (match parseStringBody [] r with
            | none => none
            | some (k, r1) =>
              match skipWs r1 with
              | ':' :: r2 =>
                (match parseValue fuel (skipWs r2) with
                 | none => none
                 | some (v, r3) =>
                   match skipWs r3 with
                   | ',' :: r4 =>
                     (match parsePairs fuel (skipWs r4) with
                      | some (ms, r5) => some ((k, v) :: ms, r5)
                      | none => none)
                   | '}' :: r4 => some ([(k, v)], r4)
                   | _ => none)
              | _ => none)
         | _ => none) := rfl

theorem parseValue_default (fuel : Nat) (c : Char) (t : List Char)
    (hws : isJsonWs c = false) (h1 : c ≠ 'n') (h2 : c ≠ 't') (h3 : c ≠ 'f')
    (h4 : c ≠ '"') (h5 : c ≠ '[') (h6 : c ≠ '{') :
    parseValue (fuel + 1) (c :: t)
      = (match parseInt (c :: t) with
         | some (i, r) => some (.num i, r)
         | none => none) := by
  simp only [parseValue]
  rw [skipWs_cons_false _ hws]
  simp [h1, h2, h3, h4, h5, h6]

theorem parseValue_int (i : Int) (fuel : Nat) (rest : List Char)
    (hr : notDigitHead rest = true) :
    parseValue (fuel + 1) (intChars i ++ rest) = some (.num i, rest) := by
  obtain ⟨c, t, hct, hc⟩ := intChars_head i
  have harg : intChars i ++ rest = c :: (t ++ rest) := by rw [hct]; rfl
  have hred : parseValue (fuel + 1) (c :: (t ++ rest))
      = (match parseInt (c :: (t ++ rest)) with
         | some (j, r) => some (.num j, r)
         | none => none) := by
    rcases hc with hc | hc
    · subst hc
      exact parseValue_default fuel '-' _ (by decide) (by decide) (by decide) (by decide)
        (by decide) (by decide) (by decide)
    · obtain ⟨hn, ht, hf, hq, hk, hb, _, _⟩ := digit_not_open hc
      exact parseValue_default fuel c _ (digit_not_ws hc) hn ht hf hq hk hb
  rw [harg, hred, ← harg, parseInt_intChars i rest hr]

theorem parseValue_str (s : String) (fuel : Nat) (rest : List Char) :
    parseValue (fuel + 1) (encVal escSeq (.str s) ++ rest) = some (.str s, rest) := by
  have harg : encVal escSeq (.str s) ++ rest
      = '"' :: (s.data.flatMap escSeq ++ '"' :: rest) := by
    show ('"' :: (s.data.flatMap escSeq ++ ['"'])) ++ rest = _
    simp
  rw [harg, parseValue_quote, parseStr_enc]

theorem parseValue_arrCons (x : Json) (xs : List Json) (fuel : Nat) (rest : List Char) :
    parseValue (fuel + 1) ('[' :: (encVal escSeq x ++ encItemsTail escSeq xs ++ ']' :: rest))
      = (match parseItems fuel (encVal escSeq x ++ encItemsTail escSeq xs ++ ']' :: rest) with
         | some (es, r') => some (.arr es, r')
         | none => none) := by
  obtain ⟨c, t, hct, hws, hbr, _⟩ := encVal_head x
  have hfull : encVal escSeq x ++ encItemsTail escSeq xs ++ ']' :: rest
      = c :: (t ++ encItemsTail escSeq xs ++ ']' :: rest) := by
    rw [hct]; simp
  rw [parseValue_bracketStep, hfull, skipWs_cons_false _ hws]
  simp [hbr, ← hfull]

theorem parseValue_objCons (k : String) (v : Json) (kvs : List (String × Json))
    (fuel : Nat) (rest : List Char) :
    parseValue (fuel + 1)
        ('{' :: (encPair escSeq (k, v) ++ encPairsTail escSeq kvs ++ '}' :: rest))
      = (match parsePairs fuel (encPair escSeq (k, v) ++ encPairsTail escSeq kvs ++ '}' :: rest) with
         | some (ms, r') => some (.obj ms, r')
         | none => none) := by
  have hfull : encPair escSeq (k, v) ++ encPairsTail escSeq kvs ++ '}' :: rest
      = '"' :: ((k.data.flatMap escSeq ++ ['"', ':', ' ']) ++ encVal escSeq v
          ++ encPairsTail escSeq kvs ++ '}' :: rest) := by
    show ('"' :: ((k.data.flatMap escSeq ++ ['"', ':', ' ']) ++ encVal escSeq v))
        ++ encPairsTail escSeq kvs ++ '}' :: rest = _
    simp
  rw [parseValue_braceStep, hfull, skipWs_cons_false _ (by decide)]
  simp only [if_neg (by decide : ¬('"' = '}'))]

/-! ## The codec round-trip -/

mutual
theorem rtValue : ∀ (v : Json) (fuel : Nat) (rest : List Char),
    (encVal escSeq v).length < fuel → notDigitHead rest = true →
    parseValue fuel (encVal escSeq v ++ rest) = some (v, rest)
  | .null, fuel, rest, hf, _ => by
    cases fuel with
    | zero => simp [encVal] at hf
    | succ f =>
      show parseValue (f + 1) (('n' :: 'u' :: 'l' :: 'l' :: []) ++ rest) = some (.null, rest)
      rfl
  | .bool true, fuel, rest, hf, _ => by
    cases fuel with
    | zero => simp [encVal] at hf
    | succ f =>
      show parseValue (f + 1) (('t' :: 'r' :: 'u' :: 'e' :: []) ++ rest) = some (.bool true, rest)
      rfl
  | .bool false, fuel, rest, hf, _ => by
    cases fuel with
    | zero => simp [encVal] at hf
    | succ f =>
      show parseValue (f + 1) (('f' :: 'a' :: 'l' :: 's' :: 'e' :: []) ++ rest)
          = some (.bool false, rest)
      rfl
  | .num i, fuel, rest, hf, hr => by
    cases fuel with
    | zero => exact absurd hf (Nat.not_lt_zero _)
    | succ f => exact parseValue_int i f rest hr
  | .str s, fuel, rest, hf, _ => by
    cases fuel with
    | zero => exact absurd hf (Nat.not_lt_zero _)
    | succ f => exact parseValue_str s f rest
  | .arr [], fuel, rest, hf, _ => by
    cases fuel with
    | zero => simp [encVal] at hf
    | succ f =>
      show parseValue (f + 1) (('[' :: ']' :: []) ++ rest) = some (.arr [], rest)
      rfl
  | .arr (x :: xs), fuel, rest, hf, _ => by
    cases fuel with
    | zero => exact absurd hf (Nat.not_lt_zero _)
    | succ f =>
      have hlen : (encVal escSeq (Json.arr (x :: xs))).length
          = (encVal escSeq x).length + (encItemsTail escSeq xs).length + 2 := by
        show ('[' :: (encVal escSeq x ++ encItemsTail escSeq xs ++ [']'])).length = _
        simp
        omega
      have hb : (encVal escSeq x).length + (encItemsTail escSeq xs).length + 1 < f := by
        rw [hlen] at hf; omega
      have harg : encVal escSeq (Json.arr (x :: xs)) ++ rest
          = '[' :: (encVal escSeq x ++ encItemsTail escSeq xs ++ ']' :: rest) := by
        show ('[' :: (encVal escSeq x ++ encItemsTail escSeq xs ++ [']'])) ++ rest = _
        simp
      rw [harg, parseValue_arrCons, rtItems x xs f rest hb]
  | .obj [], fuel, rest, hf, _ => by
    cases fuel with
    | zero => simp [encVal] at hf
    | succ f =>
      show parseValue (f + 1) (('{' :: '}' :: []) ++ rest) = some (.obj [], rest)
      rfl
  | .obj ((k, v) :: kvs), fuel, rest, hf, _ => by
    cases fuel with
    | zero => exact absurd hf (Nat.not_lt_zero _)
    | succ f =>
      have hlen : (encVal escSeq (Json.obj ((k, v) :: kvs))).length
          = (encPair escSeq (k, v)).length + (encPairsTail escSeq kvs).length + 2 := by
        show ('{' :: (encPair escSeq (k, v) ++ encPairsTail escSeq kvs ++ ['}'])).length = _
        simp
        omega
      have hb : (encPair escSeq (k, v)).length + (encPairsTail escSeq kvs).length + 1 < f := by
        rw [hlen] at hf; omega
      have harg : encVal escSeq (Json.obj ((k, v) :: kvs)) ++ rest
          = '{' :: (encPair escSeq (k, v) ++ encPairsTail escSeq kvs ++ '}' :: rest) := by
        show ('{' :: (encPair escSeq (k, v) ++ encPairsTail escSeq kvs ++ ['}'])) ++ rest = _
        simp
      rw [harg, parseValue_objCons, rtPairs (k, v) kvs f rest hb]
termination_by v _ _ _ _ => sizeOf v

theorem rtItems : ∀ (x : Json) (xs : List Json) (fuel : Nat) (rest : List Char),
    (encVal escSeq x).length + (encItemsTail escSeq xs).length + 1 < fuel →
    parseItems fuel (encVal escSeq x ++ encItemsTail escSeq xs ++ ']' :: rest)
      = some (x :: xs, rest)
  | x, [], fuel, rest, hf => by
    cases fuel with
    | zero => omega
    | succ f =>
      have hfx : (encVal escSeq x).length < f := by
        simp only [encItemsTail, List.length_nil] at hf; omega
      have hv := rtValue x f (']' :: rest) hfx rfl
      have harg : encVal escSeq x ++ encItemsTail escSeq [] ++ ']' :: rest
          = encVal escSeq x ++ ']' :: rest := by
        show encVal escSeq x ++ [] ++ ']' :: rest = _
        simp
      rw [harg, parseItems_step, hv]
      rfl
  | x, x' :: xs', fuel, rest, hf => by
    cases fuel with
    | zero => omega
    | succ f =>
      have hlen : (encItemsTail escSeq (x' :: xs')).length
          = (encVal escSeq x').length + (encItemsTail escSeq xs').length + 2 := by
        show (',' :: ' ' :: (encVal escSeq x' ++ encItemsTail escSeq xs')).length = _
        simp
      have hfx : (encVal escSeq x).length < f := by omega
      have hfr : (encVal escSeq x').length + (encItemsTail escSeq xs').length + 1 < f := by
        omega
      have harg : encVal escSeq x ++ encItemsTail escSeq (x' :: xs') ++ ']' :: rest
          = encVal escSeq x
              ++ ',' :: ' ' :: (encVal escSeq x' ++ encItemsTail escSeq xs' ++ ']' :: rest) := by
        show encVal escSeq x ++ (',' :: ' ' :: (encVal escSeq x' ++ encItemsTail escSeq xs'))
            ++ ']' :: rest = _
        simp
      have hv := rtValue x f
        (',' :: ' ' :: (encVal escSeq x' ++ encItemsTail escSeq xs' ++ ']' :: rest)) hfx rfl
      rw [harg, parseItems_step, hv]
      have hskip : skipWs (' ' :: (encVal escSeq x' ++ encItemsTail escSeq xs' ++ ']' :: rest))
          = encVal escSeq x' ++ encItemsTail escSeq xs' ++ ']' :: rest := by
        rw [skipWs_space]
        rw [show encVal escSeq x' ++ encItemsTail escSeq xs' ++ ']' :: rest
            = encVal escSeq x' ++ (encItemsTail escSeq xs' ++ ']' :: rest) from by simp]
        rw [skipWs_encVal]
      show (match parseItems f (skipWs (' ' :: (encVal escSeq x' ++ encItemsTail escSeq xs'
          ++ ']' :: rest))) with
        | some (vs, r'') => some (x :: vs, r'')
        | none => none) = some (x :: x' :: xs', rest)
      rw [hskip, rtItems x' xs' f rest hfr]
termination_by x xs _ _ _ => sizeOf x + sizeOf xs

theorem rtPairs : ∀ (kv : String × Json) (kvs : List (String × Json)) (fuel : Nat)
    (rest : List Char),
    (encPair escSeq kv).length + (encPairsTail escSeq kvs).length + 1 < fuel →
    parsePairs fuel (encPair escSeq kv ++ encPairsTail escSeq kvs ++ '}' :: rest)
      = some (kv :: kvs, rest)
  | (k, v), [], fuel, rest, hf => by
    cases fuel with
    | zero => omega
    | succ f =>
      have hplen : (encPair escSeq (k, v)).length
          = (k.data.flatMap escSeq).length + (encVal escSeq v).length + 4 := by
        show ('"' :: ((k.data.flatMap escSeq ++ ['"', ':', ' ']) ++ encVal escSeq v)).length = _
        simp
        omega
      have hfv : (encVal escSeq v).length < f := by
        simp only [encPairsTail, List.length_nil] at hf; omega
      have harg : encPair escSeq (k, v) ++ encPairsTail escSeq [] ++ '}' :: rest
          = '"' :: (k.data.flatMap escSeq ++ '"' :: (':' :: (' ' :: (encVal escSeq v
              ++ '}' :: rest)))) := by
        show ('"' :: ((k.data.flatMap escSeq ++ ['"', ':', ' ']) ++ encVal escSeq v)) ++ []
            ++ '}' :: rest = _
        simp
      have hv := rtValue v f ('}' :: rest) hfv rfl
      rw [harg, parsePairs_step]
      have hq : skipWs ('"' :: (k.data.flatMap escSeq ++ '"' :: (':' :: (' ' :: (encVal escSeq v
          ++ '}' :: rest)))))
          = '"' :: (k.data.flatMap escSeq ++ '"' :: (':' :: (' ' :: (encVal escSeq v
          ++ '}' :: rest)))) := skipWs_cons_false _ (by decide)
      have hcolon : skipWs (':' :: (' ' :: (encVal escSeq v ++ '}' :: rest)))
          = ':' :: (' ' :: (encVal escSeq v ++ '}' :: rest)) := skipWs_cons_false _ (by decide)
      have hsp : skipWs (' ' :: (encVal escSeq v ++ '}' :: rest))
          = encVal escSeq v ++ '}' :: rest := by
        rw [skipWs_space]; exact skipWs_encVal v _
      have hcl : skipWs ('}' :: rest) = '}' :: rest := skipWs_cons_false _ (by decide)
      simp only [hq, parseStr_enc, hcolon, hsp, hv, hcl]
  | (k, v), (k', v') :: kvs', fuel, rest, hf => by
    cases fuel with
    | zero => omega
    | succ f =>
      have hplen : (encPair escSeq (k, v)).length
          = (k.data.flatMap escSeq).length + (encVal escSeq v).length + 4 := by
        show ('"' :: ((k.data.flatMap escSeq ++ ['"', ':', ' ']) ++ encVal escSeq v)).length = _
        simp
        omega
      have htlen : (encPairsTail escSeq ((k', v') :: kvs')).length
          = (encPair escSeq (k', v')).length + (encPairsTail escSeq kvs').length + 2 := by
        show (',' :: ' ' :: (encPair escSeq (k', v') ++ encPairsTail escSeq kvs')).length = _
        simp
      have hfv : (encVal escSeq v).length < f := by omega
      have hfr : (encPair escSeq (k', v')).length + (encPairsTail escSeq kvs').length + 1 < f := by
        omega
      have harg : encPair escSeq (k, v) ++ encPairsTail escSeq ((k', v') :: kvs') ++ '}' :: rest
          = '"' :: (k.data.flatMap escSeq ++ '"' :: (':' :: (' ' :: (encVal escSeq v
              ++ ',' :: ' ' :: (encPair escSeq (k', v') ++ encPairsTail escSeq kvs'
                ++ '}' :: rest))))) := by
        show ('"' :: ((k.data.flatMap escSeq ++ ['"', ':', ' ']) ++ encVal escSeq v))
            ++ (',' :: ' ' :: (encPair escSeq (k', v') ++ encPairsTail escSeq kvs'))
            ++ '}' :: rest = _
        simp
      have hv := rtValue v f
        (',' :: ' ' :: (encPair escSeq (k', v') ++ encPairsTail escSeq kvs' ++ '}' :: rest))
        hfv rfl
      rw [harg, parsePairs_step]
      have hq : skipWs ('"' :: (k.data.flatMap escSeq ++ '"' :: (':' :: (' ' :: (encVal escSeq v
          ++ ',' :: ' ' :: (encPair escSeq (k', v') ++ encPairsTail escSeq kvs'
            ++ '}' :: rest))))))
          = '"' :: (k.data.flatMap escSeq ++ '"' :: (':' :: (' ' :: (encVal escSeq v
          ++ ',' :: ' ' :: (encPair escSeq (k', v') ++ encPairsTail escSeq kvs'
            ++ '}' :: rest)))))
          := skipWs_cons_false _ (by decide)
      have hcolon : skipWs (':' :: (' ' :: (encVal escSeq v ++ ',' :: ' '
          :: (encPair escSeq (k', v') ++ encPairsTail escSeq kvs' ++ '}' :: rest))))
          = ':' :: (' ' :: (encVal escSeq v ++ ',' :: ' '
          :: (encPair escSeq (k', v') ++ encPairsTail escSeq kvs' ++ '}' :: rest)))
          := skipWs_cons_false _ (by decide)
      have hsp : skipWs (' ' :: (encVal escSeq v ++ ',' :: ' ' :: (encPair escSeq (k', v')
          ++ encPairsTail escSeq kvs' ++ '}' :: rest)))
          = encVal escSeq v ++ ',' :: ' ' :: (encPair escSeq (k', v')
          ++ encPairsTail escSeq kvs' ++ '}' :: rest) := by
        rw [skipWs_space]; exact skipWs_encVal v _
      have hcm : skipWs (',' :: ' ' :: (encPair escSeq (k', v') ++ encPairsTail escSeq kvs'
          ++ '}' :: rest))
          = ',' :: ' ' :: (encPair escSeq (k', v') ++ encPairsTail escSeq kvs' ++ '}' :: rest)
          := skipWs_cons_false _ (by decide)
      have hskip : skipWs (' ' :: (encPair escSeq (k', v') ++ encPairsTail escSeq kvs'
          ++ '}' :: rest))
          = encPair escSeq (k', v') ++ encPairsTail escSeq kvs' ++ '}' :: rest := by
        rw [skipWs_space]
        have hsh : encPair escSeq (k', v') ++ encPairsTail escSeq kvs' ++ '}' :: rest
            = '"' :: (((k'.data.flatMap escSeq ++ ['"', ':', ' ']) ++ encVal escSeq v')
                ++ (encPairsTail escSeq kvs' ++ '}' :: rest)) := by
          show ('"' :: ((k'.data.flatMap escSeq ++ ['"', ':', ' ']) ++ encVal escSeq v'))
              ++ encPairsTail escSeq kvs' ++ '}' :: rest = _
          simp
        rw [hsh, skipWs_cons_false _ (by decide)]
      have key := rtPairs (k', v') kvs' f rest hfr
      simp only [hq, parseStr_enc, hcolon, hsp, hv, hcm, hskip, key]
termination_by kv kvs _ _ _ => sizeOf kv + sizeOf kvs
end

/-- Round-trip: `json.loads` inverts `json.dumps(·, ensure_ascii=False)` on every value. -/
theorem pyLoads_pyDumps (v : Json) : pyLoads (pyDumps v) = some v := by
  have h := rtValue v ((encVal escSeq v).length + 1) [] (by omega) rfl
  rw [List.append_nil] at h
  show (match parseValue ((encVal escSeq v).length + 1) (encVal escSeq v) with
    | some (w, r) => if skipWs r = [] then some w else none
    | none => none) = some v
  rw [h]
  rfl

/-! ## Monitor tick facts -/

theorem monitorStep_last_seen (net : String → PlcNet) (appendOk : String → Bool) (now : Int)
    (st : MasterState) (e : String × String) :
    (monitorStep net appendOk now st e).1.last_seen = st.last_seen := by
  unfold monitorStep
  cases hg : dictGet st.last_seen e.1 with
  | none => rfl
  | some last =>
    by_cases hst : now - last > HEARTBEAT_TIMEOUT
    · by_cases hok : (send_plc_reset (net e.1) e.2).ok = true
      · simp [hst, hok, recordSuccessfulReset]
      · simp [hst, hok]
    · simp [hst]

theorem monitorGo_last_seen (net : String → PlcNet) (appendOk : String → Bool) (now : Int) :
    ∀ (l : List (String × String)) (st : MasterState),
      (monitorGo net appendOk now st l).1.last_seen = st.last_seen
  | [], st => rfl
  | e :: t, st => by
    show (monitorGo net appendOk now (monitorStep net appendOk now st e).1 t).1.last_seen
        = st.last_seen
    rw [monitorGo_last_seen net appendOk now t (monitorStep net appendOk now st e).1]
    exact monitorStep_last_seen net appendOk now st e

theorem isStale_of_same_last_seen {st st' : MasterState} (now : Int) (ip : String)
    (h : st'.last_seen = st.last_seen) : isStale st' now ip = isStale st now ip := by
  simp [isStale, h]

theorem actuationCount_append (relay : String) (a b : List Event) :
    actuationCount relay (a ++ b) = actuationCount relay a + actuationCount relay b := by
  simp [actuationCount, List.filter_append]

theorem actuationCount_monitorStep (relay : String) (net : String → PlcNet)
    (appendOk : String → Bool) (now : Int) (st : MasterState) (e : String × String) :
    actuationCount relay (monitorStep net appendOk now st e).2
      = if e.2 = relay ∧ isStale st now e.1 = true then 1 else 0 := by
  unfold monitorStep isStale
  cases hg : dictGet st.last_seen e.1 with
  | none => simp [actuationCount]
  | some last =>
    by_cases hst : now - last > HEARTBEAT_TIMEOUT
    · by_cases hok : (send_plc_reset (net e.1) e.2).ok = true
      · by_cases he : e.2 = relay
        · subst he
          simp [hst, hok, actuationCount, Event.isActuationOf, recordSuccessfulReset]
        · simp [hst, hok, actuationCount, Event.isActuationOf, he, recordSuccessfulReset]
      · by_cases he : e.2 = relay
        · subst he
          simp [hst, hok, actuationCount, Event.isActuationOf]
        · simp [hst, hok, actuationCount, Event.isActuationOf, he]
    · simp [hst, actuationCount]

theorem actuationCount_monitorGo (relay : String) (net : String → PlcNet)
    (appendOk : String → Bool) (now : Int) :
    ∀ (l : List (String × String)) (st : MasterState),
      actuationCount relay (monitorGo net appendOk now st l).2
        = (l.filter (fun e => e.2 = relay && isStale st now e.1)).length
  | [], st => rfl
  | e :: t, st => by
    show actuationCount relay
        ((monitorStep net appendOk now st e).2
          ++ (monitorGo net appendOk now (monitorStep net appendOk now st e).1 t).2)
      = _
    rw [actuationCount_append, actuationCount_monitorStep,
      actuationCount_monitorGo relay net appendOk now t (monitorStep net appendOk now st e).1]
    have hls := monitorStep_last_seen net appendOk now st e
    have hco : ∀ x : String × String,
        (x.2 = relay && isStale (monitorStep net appendOk now st e).1 now x.1)
          = (x.2 = relay && isStale st now x.1) := by
      intro x
      rw [isStale_of_same_last_seen now x.1 hls]
    rw [List.filter_congr (fun x _ => hco x)]
    rw [List.filter_cons]
    by_cases hc : (e.2 = relay && isStale st now e.1) = true
    · rw [if_pos hc]
      simp only [Bool.and_eq_true, decide_eq_true_eq] at hc
      rw [if_pos ⟨hc.1, hc.2⟩]
      simp [Nat.add_comm]
    · rw [if_neg hc]
      simp only [Bool.and_eq_true, decide_eq_true_eq] at hc
      rw [if_neg hc]
      simp

theorem filter_relay_nil {relay : String} (stale : String → Bool)
    (t : List (String × String)) (hno : relay ∉ t.map Prod.snd) :
    t.filter (fun e => e.2 = relay && stale e.1) = [] := by
  rw [List.filter_eq_nil_iff]
  intro a ha
  have : a.2 ≠ relay := by
    intro he
    exact hno (he ▸ List.mem_map_of_mem Prod.snd ha)
  simp [this]

theorem count_stale_registry (relay ip : String) (stale : String → Bool) :
    ∀ l : List (String × String), (l.map Prod.snd).Nodup → (ip, relay) ∈ l →
      (l.filter (fun e => e.2 = relay && stale e.1)).length = if stale ip then 1 else 0
  | [], _, hmem => absurd hmem (List.not_mem_nil _)
  | e :: t, hnd, hmem => by
    rw [List.map_cons, List.nodup_cons] at hnd
    rcases List.mem_cons.mp hmem with he | ht
    · subst he
      rw [List.filter_cons]
      rw [filter_relay_nil stale t hnd.1]
      by_cases hs : stale ip = true
      · rw [if_pos (by simp [hs]), if_pos hs]
        rfl
      · rw [if_neg (by simp [hs]), if_neg hs]
        rfl
    · have hne : e.2 ≠ relay := by
        intro h2
        exact hnd.1 (h2 ▸ List.mem_map_of_mem Prod.snd ht)
      rw [List.filter_cons, if_neg (by simp [hne])]
      exact count_stale_registry relay ip stale t hnd.2 ht

theorem monitorStep_counts_change (net : String → PlcNet) (appendOk : String → Bool)
    (now : Int) (st : MasterState) (e : String × String) (relay : String)
    (h : dictGetD (monitorStep net appendOk now st e).1.reset_counts relay 0
      ≠ dictGetD st.reset_counts relay 0) :
    Event.actuation relay true ∈ (monitorStep net appendOk now st e).2 := by
  revert h
  unfold monitorStep
  cases hg : dictGet st.last_seen e.1 with
  | none => intro h; exact absurd rfl h
  | some last =>
    by_cases hst : now - last > HEARTBEAT_TIMEOUT
    · by_cases hok : (send_plc_reset (net e.1) e.2).ok = true
      · by_cases he : e.2 = relay
        · subst he
          intro _
          simp [hst, hok, recordSuccessfulReset]
        · intro h
          exfalso
          apply h
          simp only [hst, hok, recordSuccessfulReset, if_true, if_pos]
          simp only [dictGetD]
          rw [dictGet_dictSet_other _ _ _ _ he]
      · simp [hst, hok]
    · simp [hst]

theorem monitorGo_counts_change (net : String → PlcNet) (appendOk : String → Bool)
    (now : Int) (relay : String) :
    ∀ (l : List (String × String)) (st : MasterState),
      dictGetD (monitorGo net appendOk now st l).1.reset_counts relay 0
        ≠ dictGetD st.reset_counts relay 0 →
      Event.actuation relay true ∈ (monitorGo net appendOk now st l).2
  | [], st => fun h => absurd rfl h
  | e :: t, st => by
    intro h
    show Event.actuation relay true
      ∈ (monitorStep net appendOk now st e).2
        ++ (monitorGo net appendOk now (monitorStep net appendOk now st e).1 t).2
    rw [List.mem_append]
    by_cases h1 : dictGetD (monitorStep net appendOk now st e).1.reset_counts relay 0
        = dictGetD st.reset_counts relay 0
    · right
      apply monitorGo_counts_change net appendOk now relay t
      intro h2
      exact h (h2.trans h1)
    · left
      exact monitorStep_counts_change net appendOk now st e relay h1

theorem isStale_mono (st : MasterState) (now now' : Int) (ip : String)
    (h : isStale st now ip = true) (hle : now ≤ now') : isStale st now' ip = true := by
  unfold isStale at h ⊢
  split at h
  · exact absurd h (by simp)
  · simp only [decide_eq_true_eq] at h ⊢
    omega

/-! ## Connection-handler line facts -/

theorem startsWith_ne_empty {line pre : String} (hp : pre.data ≠ [])
    (h : pyStartsWith line pre = true) : line ≠ "" := by
  intro he
  subst he
  unfold pyStartsWith at h
  cases hd : pre.data with
  | nil => exact hp hd
  | cons a as =>
    rw [hd] at h
    simp [List.isPrefixOf] at h

theorem reset_not_smart {line : String} (h : pyStartsWith line "RESET" = true) :
    pyStartsWith line "SMART " = false := by
  unfold pyStartsWith at h ⊢
  cases hd : line.data with
  | nil =>
    rw [hd] at h
    simp [List.isPrefixOf] at h
  | cons b bs =>
    rw [hd] at h
    have hb : b = 'R' := by
      have : ('R' == b && List.isPrefixOf ['E', 'S', 'E', 'T'] bs) = true := h
      have hrb := (Bool.and_eq_true _ _).mp this |>.1
      exact (beq_iff_eq.mp hrb).symm
    subst hb
    simp [List.isPrefixOf]

theorem handle_smart_fst (env : Env) (st : MasterState) (ip : String) (obj : Json) :
    (handle_smart_message env st ip obj).1 = st := by
  unfold handle_smart_message
  cases dictGet SLAVE_TO_RELAY ip <;> rfl

theorem processLine_blank (env : Env) (ip : String) (st : MasterState) (raw : String)
    (h : pyStrip raw = "") : processLine env ip st raw = (st, []) := by
  simp [processLine, h]

theorem processLine_hb (env : Env) (ip : String) (st : MasterState) (raw : String)
    (h0 : ¬pyStrip raw = "")
    (h1 : pyStartsWith (pyStrip raw) "SMART " = false)
    (h2 : pyStartsWith (pyStrip raw) "RESET" = false) :
    processLine env ip st raw
      = ({ st with last_seen := dictSet st.last_seen ip env.now }, []) := by
  simp [processLine, h0, h1, h2]

theorem processLine_smart_bad (env : Env) (ip : String) (st : MasterState) (raw : String)
    (h1 : pyStartsWith (pyStrip raw) "SMART " = true)
    (h2 : pyLoads (pyDrop (pyStrip raw) 6) = none) :
    processLine env ip st raw
      = ({ st with last_seen := dictSet st.last_seen ip env.now }, []) := by
  have h0 : ¬pyStrip raw = "" := startsWith_ne_empty (by decide) h1
  simp [processLine, h0, h1, h2]

theorem processLine_smart_good (env : Env) (ip : String) (st : MasterState) (raw : String)
    (obj : Json)
    (h1 : pyStartsWith (pyStrip raw) "SMART " = true)
    (h2 : pyLoads (pyDrop (pyStrip raw) 6) = some obj) :
    processLine env ip st raw
      = ({ st with last_seen := dictSet st.last_seen ip env.now },
         (handle_smart_message env st ip obj).2) := by
  have h0 : ¬pyStrip raw = "" := startsWith_ne_empty (by decide) h1
  simp only [processLine, h0, if_neg h0, h1, if_pos h1, h2]
  rw [show (handle_smart_message env st ip obj).1.last_seen = st.last_seen from by
    rw [handle_smart_fst]]
  cases hh : handle_smart_message env st ip obj with
  | mk a b =>
    have ha : a = st := by
      have := handle_smart_fst env st ip obj
      rw [hh] at this
      exact this
    subst ha
    rfl

theorem processLine_reset_unknown (env : Env) (ip : String) (st : MasterState) (raw : String)
    (h1 : pyStartsWith (pyStrip raw) "RESET" = true)
    (hreg : dictGet SLAVE_TO_RELAY ip = none) :
    processLine env ip st raw
      = ({ st with last_seen := dictSet st.last_seen ip env.now }, []) := by
  have h0 : ¬pyStrip raw = "" := startsWith_ne_empty (by decide) h1
  simp [processLine, h0, reset_not_smart h1, h1, hreg]

theorem processLine_reset_known (env : Env) (ip relay : String) (st : MasterState) (raw : String)
    (h1 : pyStartsWith (pyStrip raw) "RESET" = true)
    (hreg : dictGet SLAVE_TO_RELAY ip = some relay) (hne : relay ≠ "") :
    processLine env ip st raw
      = if (send_plc_reset env.plc relay).ok = true then
          ({ last_seen := dictSet st.last_seen ip env.now,
             reset_counts := dictSet st.reset_counts relay
               (dictGetD st.reset_counts relay 0 + 1) },
           [Event.actuation relay true,
            Event.countsAppend
              (relay ++ " " ++ toString (dictGetD st.reset_counts relay 0 + 1) ++ "\n")
              env.countsAppendOk])
        else ({ st with last_seen := dictSet st.last_seen ip env.now },
          [Event.actuation relay false]) := by
  have h0 : ¬pyStrip raw = "" := startsWith_ne_empty (by decide) h1
  by_cases hok : (send_plc_reset env.plc relay).ok = true
  · rw [if_pos hok]
    simp [processLine, h0, reset_not_smart h1, h1, hreg, hne, hok, recordSuccessfulReset]
  · rw [if_neg hok]
    simp [processLine, h0, reset_not_smart h1, h1, hreg, hne, hok]

/-! ## Remaining support lemmas -/

theorem isStale_iff (st : MasterState) (now : Int) (ip : String) :
    isStale st now ip = true
      ↔ ∃ last, dictGet st.last_seen ip = some last ∧ now - last > HEARTBEAT_TIMEOUT := by
  unfold isStale
  cases hg : dictGet st.last_seen ip with
  | none => simp
  | some last => simp

theorem registry_nodup : (SLAVE_TO_RELAY.map Prod.snd).Nodup := by decide

theorem registry_relay_ne_empty (ip relay : String)
    (h : dictGet SLAVE_TO_RELAY ip = some relay) : relay ≠ "" := by
  simp only [SLAVE_TO_RELAY, dictGet] at h
  split_ifs at h <;> (cases h; decide)

theorem monitorTick_count (net : String → PlcNet) (appendOk : String → Bool)
    (now : Int) (st : MasterState) (ip relay : String)
    (hmem : (ip, relay) ∈ SLAVE_TO_RELAY) :
    actuationCount relay (monitorTick net appendOk now st).2
      = if isStale st now ip = true then 1 else 0 := by
  unfold monitorTick
  rw [actuationCount_monitorGo]
  rw [count_stale_registry relay ip (fun x => isStale st now x) SLAVE_TO_RELAY
    registry_nodup hmem]

theorem monitorStep_stale_success (net : String → PlcNet) (apOk : String → Bool)
    (now : Int) (st : MasterState) (ip relay : String) (last : Int)
    (hseen : dictGet st.last_seen ip = some last)
    (hstale : now - last > HEARTBEAT_TIMEOUT)
    (hok : (send_plc_reset (net ip) relay).ok = true) :
    monitorStep net apOk now st (ip, relay)
      = ({ st with reset_counts := dictSet st.reset_counts relay (dictGetD st.reset_counts relay 0 + 1) },
         [Event.actuation relay true,
          Event.countsAppend
            (relay ++ " " ++ toString (dictGetD st.reset_counts relay 0 + 1) ++ "\n")
            (apOk ip)]) := by
  unfold monitorStep
  simp only [hseen]
  rw [if_pos hstale]
  simp [hok, recordSuccessfulReset]

theorem monitorStep_stale_failure (net : String → PlcNet) (apOk : String → Bool)
    (now : Int) (st : MasterState) (ip relay : String) (last : Int)
    (hseen : dictGet st.last_seen ip = some last)
    (hstale : now - last > HEARTBEAT_TIMEOUT)
    (hok : (send_plc_reset (net ip) relay).ok = false) :
    monitorStep net apOk now st (ip, relay) = (st, [Event.actuation relay false]) := by
  unfold monitorStep
  simp only [hseen]
  rw [if_pos hstale]
  simp [hok]

/-! # The claims -/

/-- C1: on every Liveness Monitor tick, for every slave in the static registry,
a reset actuation is attempted for that slave's relay if and only if a
last-seen timestamp exists for the slave and `now - lastSeen` exceeds the
180-second heartbeat timeout: a never-seen slave (no last-seen entry) gets no
attempt, and a stale slave gets exactly one attempt in that tick. -/
theorem C1_monitor_actuates_iff_stale (net : String → PlcNet) (appendOk : String → Bool)
    (now : Int) (st : MasterState) (ip relay : String)
    (hmem : (ip, relay) ∈ SLAVE_TO_RELAY) :
    (dictGet st.last_seen ip = none →
      actuationCount relay (monitorTick net appendOk now st).2 = 0)
    ∧ (∀ last, dictGet st.last_seen ip = some last → now - last > HEARTBEAT_TIMEOUT →
      actuationCount relay (monitorTick net appendOk now st).2 = 1)
    ∧ (∀ last, dictGet st.last_seen ip = some last → ¬now - last > HEARTBEAT_TIMEOUT →
      actuationCount relay (monitorTick net appendOk now st).2 = 0) := by
  have hc := monitorTick_count net appendOk now st ip relay hmem
  refine ⟨?_, ?_, ?_⟩
  · intro hnone
    rw [hc, if_neg]
    rw [isStale_iff]
    rintro ⟨last, hl, _⟩
    rw [hnone] at hl
    cases hl
  · intro last hl hgt
    rw [hc, if_pos]
    rw [isStale_iff]
    exact ⟨last, hl, hgt⟩
  · intro last hl hle
    rw [hc, if_neg]
    rw [isStale_iff]
    rintro ⟨last', hl', hgt'⟩
    rw [hl] at hl'
    cases hl'
    exact hle hgt'

/-- Witness for C1 at a concrete stale slave, a concrete fresh slave, and a
concrete never-seen slave. -/
theorem C1_witness :
    actuationCount "R500"
      (monitorTick (fun _ => PlcNet.mk true true RecvOutcome.timedOut) (fun _ => true) 200
        (MasterState.mk [("192.168.0.100", 10)] [])).2 = 1
    ∧ actuationCount "R501"
      (monitorTick (fun _ => PlcNet.mk true true RecvOutcome.timedOut) (fun _ => true) 200
        (MasterState.mk [("192.168.0.100", 10)] [])).2 = 0 := by
  constructor
  · exact (C1_monitor_actuates_iff_stale _ _ 200 _ "192.168.0.100" "R500"
      (by decide)).2.1 10 (by rfl) (by decide)
  · exact (C1_monitor_actuates_iff_stale _ _ 200 _ "192.168.0.101" "R501"
      (by decide)).1 (by rfl)

/-- C8: a Liveness Monitor tick never modifies any slave's last-seen timestamp
(it mutates only reset counters, and those only on a successful actuation);
consequently a slave that is stale and stays silent is actuated again on every
later tick (any later `now`), until it reports again. -/
theorem C8_monitor_frame_and_hot_loop (net : String → PlcNet) (appendOk : String → Bool)
    (now : Int) (st : MasterState) :
    (monitorTick net appendOk now st).1.last_seen = st.last_seen
    ∧ (∀ relay, dictGetD (monitorTick net appendOk now st).1.reset_counts relay 0
        ≠ dictGetD st.reset_counts relay 0 →
        Event.actuation relay true ∈ (monitorTick net appendOk now st).2)
    ∧ (∀ (ip relay : String) (now' : Int) (net' : String → PlcNet)
        (appendOk' : String → Bool),
        (ip, relay) ∈ SLAVE_TO_RELAY → isStale st now ip = true → now ≤ now' →
        actuationCount relay
          (monitorTick net' appendOk' now' (monitorTick net appendOk now st).1).2 = 1) := by
  refine ⟨monitorGo_last_seen net appendOk now SLAVE_TO_RELAY st, ?_, ?_⟩
  · intro relay h
    exact monitorGo_counts_change net appendOk now relay SLAVE_TO_RELAY st h
  · intro ip relay now' net' appendOk' hmem hstale hle
    have hls : (monitorTick net appendOk now st).1.last_seen = st.last_seen :=
      monitorGo_last_seen net appendOk now SLAVE_TO_RELAY st
    have hstale' : isStale (monitorTick net appendOk now st).1 now' ip = true := by
      rw [isStale_of_same_last_seen now' ip hls]
      exact isStale_mono st now now' ip hstale hle
    rw [monitorTick_count net' appendOk' now' _ ip relay hmem, if_pos hstale']

/-- Witness for C8: a stale silent slave is hit again on the next tick. -/
theorem C8_witness :
    actuationCount "R500"
      (monitorTick (fun _ => PlcNet.mk true true RecvOutcome.timedOut) (fun _ => true) 201
        (monitorTick (fun _ => PlcNet.mk true true RecvOutcome.timedOut) (fun _ => true) 200
          (MasterState.mk [("192.168.0.100", 10)] [])).1).2 = 1 :=
  (C8_monitor_frame_and_hot_loop
    (fun _ => { connect_ok := true, send_ok := true, recv := RecvOutcome.timedOut })
    (fun _ => true) 200
    (MasterState.mk [("192.168.0.100", 10)] [])).2.2
    "192.168.0.100" "R500" 201 _ _ (by decide) (by rfl) (by decide)

/-- C2: the per-relay counter is incremented by exactly 1 per successful
actuation and unchanged on failure, in both the explicit-RESET path and the
monitor path; each increment appends one line `<relayID> <cumulativeCount>`
(with trailing newline) to the reset-counts file; and the in-memory increment
does not depend on whether that append succeeds. -/
theorem C2_counter_increment (env : Env) (ip relay : String) (st : MasterState) (raw : String)
    (net : String → PlcNet) (apOk : String → Bool) (now last : Int)
    (hreg : dictGet SLAVE_TO_RELAY ip = some relay) (hne : relay ≠ "")
    (hline : pyStartsWith (pyStrip raw) "RESET" = true)
    (hseen : dictGet st.last_seen ip = some last)
    (hstale : now - last > HEARTBEAT_TIMEOUT) :
    ((send_plc_reset env.plc relay).ok = true →
      dictGetD (processLine env ip st raw).1.reset_counts relay 0
          = dictGetD st.reset_counts relay 0 + 1
      ∧ (processLine env ip st raw).2
          = [Event.actuation relay true,
             Event.countsAppend
               (relay ++ " " ++ toString (dictGetD st.reset_counts relay 0 + 1) ++ "\n")
               env.countsAppendOk]
      ∧ ∀ b : Bool,
          (processLine { env with countsAppendOk := b } ip st raw).1
            = (processLine env ip st raw).1)
    ∧ ((send_plc_reset env.plc relay).ok = false →
      (processLine env ip st raw).1.reset_counts = st.reset_counts
      ∧ (processLine env ip st raw).2 = [Event.actuation relay false])
    ∧ ((send_plc_reset (net ip) relay).ok = true →
      dictGetD (monitorStep net apOk now st (ip, relay)).1.reset_counts relay 0
          = dictGetD st.reset_counts relay 0 + 1
      ∧ (monitorStep net apOk now st (ip, relay)).2
          = [Event.actuation relay true,
             Event.countsAppend
               (relay ++ " " ++ toString (dictGetD st.reset_counts relay 0 + 1) ++ "\n")
               (apOk ip)]
      ∧ ∀ g : String → Bool,
          (monitorStep net g now st (ip, relay)).1
            = (monitorStep net apOk now st (ip, relay)).1)
    ∧ ((send_plc_reset (net ip) relay).ok = false →
      (monitorStep net apOk now st (ip, relay)).1.reset_counts = st.reset_counts
      ∧ (monitorStep net apOk now st (ip, relay)).2 = [Event.actuation relay false]) := by
  refine ⟨?_, ?_, ?_, ?_⟩
  · intro hok
    rw [processLine_reset_known env ip relay st raw hline hreg hne, if_pos hok]
    refine ⟨dictGetD_dictSet_self _ _ _ _, rfl, ?_⟩
    intro b
    rw [processLine_reset_known { env with countsAppendOk := b } ip relay st raw hline
      hreg hne]
    have hok2 : (send_plc_reset ({ env with countsAppendOk := b } : Env).plc relay).ok
        = true := hok
    rw [if_pos hok2]
  · intro hok
    rw [processLine_reset_known env ip relay st raw hline hreg hne,
      if_neg (by simp [hok])]
    exact ⟨rfl, rfl⟩
  · intro hok
    rw [monitorStep_stale_success net apOk now st ip relay last hseen hstale hok]
    refine ⟨dictGetD_dictSet_self _ _ _ _, rfl, ?_⟩
    intro g
    rw [monitorStep_stale_success net g now st ip relay last hseen hstale hok]
  · intro hok
    rw [monitorStep_stale_failure net apOk now st ip relay last hseen hstale hok]
    exact ⟨rfl, rfl⟩

/-- Witness for C2: a concrete successful RESET-path and monitor-path增 increment
from count 0 to 1, with the append line `R500 1`. -/
theorem C2_witness :
    dictGetD (processLine
        (Env.mk 300 "t" (PlcNet.mk true true RecvOutcome.timedOut) true true)
        "192.168.0.100" (MasterState.mk [("192.168.0.100", 10)] []) "RESET").1.reset_counts
      "R500" 0 = 1
    ∧ (processLine (Env.mk 300 "t" (PlcNet.mk true true RecvOutcome.timedOut) true true)
        "192.168.0.100" (MasterState.mk [("192.168.0.100", 10)] []) "RESET").2
      = [Event.actuation "R500" true, Event.countsAppend "R500 1\n" true]
    ∧ dictGetD (monitorStep (fun _ => PlcNet.mk true true RecvOutcome.timedOut)
        (fun _ => true) 300 (MasterState.mk [("192.168.0.100", 10)] [])
        ("192.168.0.100", "R500")).1.reset_counts "R500" 0 = 1 := by
  have h := C2_counter_increment
    (Env.mk 300 "t" (PlcNet.mk true true RecvOutcome.timedOut) true true)
    "192.168.0.100" "R500" (MasterState.mk [("192.168.0.100", 10)] []) "RESET"
    (fun _ => PlcNet.mk true true RecvOutcome.timedOut) (fun _ => true) 300 10
    (by rfl) (by decide) (by rfl) (by rfl) (by decide)
  obtain ⟨h1, _, h3, _⟩ := h
  obtain ⟨h1a, h1b, _⟩ := h1 (by rfl)
  obtain ⟨h3a, _, _⟩ := h3 (by rfl)
  exact ⟨h1a, h1b, h3a⟩

/-- C3 counterexample: with connect and send both succeeding and the reply
read failing with a non-timeout error, `send_plc_reset` returns failure even
though neither connecting nor sending failed — the claimed "false exactly when
connecting or sending fails" is violated. -/
theorem C3_counterexample :
    ¬(((send_plc_reset (PlcNet.mk true true RecvOutcome.failed) "R500").ok = false)
      ↔ ((PlcNet.mk true true RecvOutcome.failed).connect_ok = false
         ∨ (PlcNet.mk true true RecvOutcome.failed).send_ok = false)) := by
  decide

/-- C3 amended: `send_plc_reset` is total (never raises past its boundary) and
returns false exactly when connecting fails, sending fails, or the 1-second
reply read fails with a non-timeout error; a missing reply (timeout) is not a
failure; on success the bytes sent are the ascii-ignore encoding of
`"RS " ++ relay ++ "\r\n"`, which for an all-ASCII relay identifier is exactly
the command word, a space, the relay identifier, and CRLF. -/
theorem C3_amended (net : PlcNet) (relay : String) :
    ((send_plc_reset net relay).ok = false
      ↔ (net.connect_ok = false ∨ net.send_ok = false ∨ net.recv = RecvOutcome.failed))
    ∧ ((send_plc_reset net relay).ok = true →
        (send_plc_reset net relay).sent = some (asciiIgnoreEncode (plcCmdString relay)))
    ∧ (relay.data.all (fun c => c.toNat ≤ 127) = true →
        asciiIgnoreEncode (plcCmdString relay) = (plcCmdString relay).data.map Char.toNat) := by
  obtain ⟨co, so, rv⟩ := net
  refine ⟨?_, ?_, ?_⟩
  · cases co <;> cases so <;> cases rv <;> simp [send_plc_reset]
  · cases co <;> cases so <;> cases rv <;> simp [send_plc_reset]
  · intro hall
    unfold asciiIgnoreEncode
    rw [List.filter_eq_self.mpr]
    intro a ha
    have hd : (plcCmdString relay).data = "RS ".data ++ relay.data ++ "\r\n".data := by
      unfold plcCmdString
      rw [String.data_append, String.data_append]
    rw [hd] at ha
    simp only [List.mem_append] at ha
    rcases ha with (ha | ha) | ha
    · fin_cases ha <;> decide
    · rw [List.all_eq_true] at hall
      simpa using hall a ha
    · fin_cases ha <;> decide

/-- Witness for C3 amended: on a reply timeout the call succeeds and the bytes
sent are exactly `RS R500\r\n`. -/
theorem C3_witness :
    (send_plc_reset (PlcNet.mk true true RecvOutcome.timedOut) "R500").sent
      = some (("RS R500\r\n").data.map Char.toNat) := by
  have h := C3_amended (PlcNet.mk true true RecvOutcome.timedOut) "R500"
  rw [h.2.1 (by rfl), h.2.2 (by decide)]
  rfl

/-- C4: every classified (non-blank) message from any sender, registered or
not, sets that sender's last-seen entry to the current time; and a sender
that is not in the registry produces no actuation, no counter change, and no
telemetry write, for any message type. -/
theorem C4_last_seen_and_unknown (env : Env) (ip : String) (st : MasterState) (raw : String)
    (h0 : ¬pyStrip raw = "") :
    (processLine env ip st raw).1.last_seen = dictSet st.last_seen ip env.now
    ∧ (dictGet SLAVE_TO_RELAY ip = none →
        (processLine env ip st raw).1.reset_counts = st.reset_counts
        ∧ (processLine env ip st raw).2 = []) := by
  by_cases hS : pyStartsWith (pyStrip raw) "SMART " = true
  · cases hL : pyLoads (pyDrop (pyStrip raw) 6) with
    | none =>
      rw [processLine_smart_bad env ip st raw hS hL]
      exact ⟨rfl, fun _ => ⟨rfl, rfl⟩⟩
    | some obj =>
      rw [processLine_smart_good env ip st raw obj hS hL]
      refine ⟨rfl, fun hreg => ⟨rfl, ?_⟩⟩
      unfold handle_smart_message
      rw [hreg]
  · by_cases hR : pyStartsWith (pyStrip raw) "RESET" = true
    · generalize hreg : dictGet SLAVE_TO_RELAY ip = o
      cases o with
      | none =>
        rw [processLine_reset_unknown env ip st raw hR hreg]
        exact ⟨rfl, fun _ => ⟨rfl, rfl⟩⟩
      | some relay =>
        have hne := registry_relay_ne_empty ip relay hreg
        rw [processLine_reset_known env ip relay st raw hR hreg hne]
        by_cases hok : (send_plc_reset env.plc relay).ok = true
        · rw [if_pos hok]
          exact ⟨rfl, fun hcontra => absurd hcontra (by simp)⟩
        · rw [if_neg hok]
          exact ⟨rfl, fun hcontra => absurd hcontra (by simp)⟩
    · rw [processLine_hb env ip st raw h0 (by simpa using hS) (by simpa using hR)]
      exact ⟨rfl, fun _ => ⟨rfl, rfl⟩⟩

/-- Witness for C4: an unregistered sender's heartbeat, telemetry, and RESET
request all touch only its last-seen entry. -/
theorem C4_witness :
    (processLine (Env.mk 7 "t" (PlcNet.mk true true RecvOutcome.timedOut) true true)
      "10.9.9.9" (MasterState.mk [] []) "RESET").1.last_seen
      = dictSet ([] : List (String × Int)) "10.9.9.9" 7
    ∧ (processLine (Env.mk 7 "t" (PlcNet.mk true true RecvOutcome.timedOut) true true)
        "10.9.9.9" (MasterState.mk [] []) "RESET").2 = [] := by
  have h := C4_last_seen_and_unknown
    (Env.mk 7 "t" (PlcNet.mk true true RecvOutcome.timedOut) true true)
    "10.9.9.9" (MasterState.mk [] []) "RESET" (by decide)
  exact ⟨h.1, (h.2 (by rfl)).2⟩

/-- C5: a `SMART `-prefixed line whose payload does not decode as JSON is
dropped with no telemetry record and no other state change except the
sender's last-seen update; processing is total (no crash), and the remaining
lines of the same connection are processed exactly as they would be from the
updated state. -/
theorem C5_bad_payload_dropped (env : Env) (ip : String) (st : MasterState) (raw : String)
    (h1 : pyStartsWith (pyStrip raw) "SMART " = true)
    (h2 : pyLoads (pyDrop (pyStrip raw) 6) = none) :
    processLine env ip st raw
      = ({ st with last_seen := dictSet st.last_seen ip env.now }, [])
    ∧ ∀ rest : List (Env × String),
        processLines ip st ((env, raw) :: rest)
          = processLines ip ({ st with last_seen := dictSet st.last_seen ip env.now }) rest := by
  have hp := processLine_smart_bad env ip st raw h1 h2
  refine ⟨hp, ?_⟩
  intro rest
  show (let p1 := processLine env ip st raw
        let p2 := processLines ip p1.1 rest
        (p2.1, p1.2 ++ p2.2))
      = processLines ip ({ st with last_seen := dictSet st.last_seen ip env.now }) rest
  rw [hp]
  simp

/-- Witness for C5: `SMART notjson` followed by a heartbeat — the bad payload
leaves only a last-seen update, and the heartbeat is still processed. -/
theorem C5_witness :
    processLines "192.168.0.100" (MasterState.mk [] [])
      [(Env.mk 1 "t" (PlcNet.mk true true RecvOutcome.timedOut) true true, "SMART notjson"),
       (Env.mk 2 "t" (PlcNet.mk true true RecvOutcome.timedOut) true true, "HB")]
      = processLines "192.168.0.100"
          (MasterState.mk (dictSet ([] : List (String × Int)) "192.168.0.100" 1) [])
          [(Env.mk 2 "t" (PlcNet.mk true true RecvOutcome.timedOut) true true, "HB")] :=
  (C5_bad_payload_dropped
    (Env.mk 1 "t" (PlcNet.mk true true RecvOutcome.timedOut) true true)
    "192.168.0.100" (MasterState.mk [] []) "SMART notjson" (by rfl) (by rfl)).2
    [(Env.mk 2 "t" (PlcNet.mk true true RecvOutcome.timedOut) true true, "HB")]

/-- C6 counterexample: on a `SMART ` line whose payload fails to decode, the
Connection Handler records nothing at all — no telemetry event is forwarded,
contradicting the claimed best-effort `{"text": <raw>}` fallback record. -/
theorem C6_counterexample :
    (processLine (Env.mk 0 "t" (PlcNet.mk true true RecvOutcome.timedOut) true true)
      "192.168.0.100" (MasterState.mk [] []) "SMART notjson").2 = []
    ∧ pyLoads "notjson" = none := ⟨rfl, rfl⟩

/-- C6 amended: when a `SMART ` payload fails to decode as JSON the Connection
Handler forwards nothing to the Telemetry Recorder (the message is logged and
dropped); the `{"text": <raw string>}` wrapping the claim describes is done by
the slave agent before sending — its initial SMART message wraps undecodable
`smartctl` output under the reserved key `text` (with the default
`ensure_ascii=True` serialization). -/
theorem C6_amended_fallback_is_slave_side (env : Env) (ip : String) (st : MasterState)
    (raw info : String)
    (h1 : pyStartsWith (pyStrip raw) "SMART " = true)
    (h2 : pyLoads (pyDrop (pyStrip raw) 6) = none)
    (h3 : pyLoads info = none) :
    (processLine env ip st raw).2 = []
    ∧ initial_smart_message info
        = "SMART " ++ pyDumpsAscii (Json.obj [("text", Json.str info)]) ++ "\n" := by
  constructor
  · rw [processLine_smart_bad env ip st raw h1 h2]
  · unfold initial_smart_message
    rw [h3]

/-- Witness for C6 amended: undecodable `smartctl` output is wrapped by the
slave as `{"text": ...}`, while the handler records nothing for it. -/
theorem C6_witness :
    (processLine (Env.mk 0 "t" (PlcNet.mk true true RecvOutcome.timedOut) true true)
      "192.168.0.101" (MasterState.mk [] []) "SMART disk output").2 = []
    ∧ initial_smart_message "disk output" = "SMART \x7b\"text\": \"disk output\"\x7d\n" := by
  have h := C6_amended_fallback_is_slave_side
    (Env.mk 0 "t" (PlcNet.mk true true RecvOutcome.timedOut) true true)
    "192.168.0.101" (MasterState.mk [] []) "SMART disk output" "disk output"
    (by rfl) (by rfl) (by rfl)
  refine ⟨h.1, ?_⟩
  rw [h.2]
  rfl

/-- C7: a successfully decoded SMART message from a registered slave produces
exactly one telemetry append whose record, serialized with `json.dumps` and
parsed back with `json.loads`, reproduces itself; its `relay`, `slave_ip` and
`smart` fields carry the recorded values and `reset_count` equals the relay's
counter at receipt time (`reset_counts.get(relay, 0)`, 0 if none yet). -/
theorem C7_telemetry_roundtrip (env : Env) (ip relay : String) (st : MasterState)
    (raw : String) (smart : Json)
    (h1 : pyStartsWith (pyStrip raw) "SMART " = true)
    (h2 : pyLoads (pyDrop (pyStrip raw) 6) = some smart)
    (h3 : dictGet SLAVE_TO_RELAY ip = some relay) :
    (processLine env ip st raw).2
      = [Event.telemetryWrite relay
          (telemetryRecord env.recvTime ip relay (dictGetD st.reset_counts relay 0) smart)
          env.telemetryAppendOk]
    ∧ pyLoads (pyDumps (telemetryRecord env.recvTime ip relay
        (dictGetD st.reset_counts relay 0) smart))
      = some (telemetryRecord env.recvTime ip relay (dictGetD st.reset_counts relay 0) smart)
    ∧ jsonField (telemetryRecord env.recvTime ip relay
        (dictGetD st.reset_counts relay 0) smart) "relay" = some (Json.str relay)
    ∧ jsonField (telemetryRecord env.recvTime ip relay
        (dictGetD st.reset_counts relay 0) smart) "slave_ip" = some (Json.str ip)
    ∧ jsonField (telemetryRecord env.recvTime ip relay
        (dictGetD st.reset_counts relay 0) smart) "smart" = some smart
    ∧ jsonField (telemetryRecord env.recvTime ip relay
        (dictGetD st.reset_counts relay 0) smart) "reset_count"
      = some (Json.num ((dictGetD st.reset_counts relay 0 : Nat) : Int)) := by
  refine ⟨?_, pyLoads_pyDumps _, rfl, rfl, rfl, rfl⟩
  rw [processLine_smart_good env ip st raw smart h1 h2]
  unfold handle_smart_message
  rw [h3]

/-- Witness for C7: the spec's own scenario,
`SMART {"temperature_celsius": 42}` from `192.168.0.100` with no prior reset. -/
theorem C7_witness :
    (processLine (Env.mk 3 "2025-01-01T00:00:00Z"
        (PlcNet.mk true true RecvOutcome.timedOut) true true)
      "192.168.0.100" (MasterState.mk [] [])
      "SMART \x7b\"temperature_celsius\": 42\x7d").2
      = [Event.telemetryWrite "R500"
          (telemetryRecord "2025-01-01T00:00:00Z" "192.168.0.100" "R500" 0
            (Json.obj [("temperature_celsius", Json.num 42)])) true]
    ∧ pyLoads (pyDumps (telemetryRecord "2025-01-01T00:00:00Z" "192.168.0.100" "R500" 0
        (Json.obj [("temperature_celsius", Json.num 42)])))
      = some (telemetryRecord "2025-01-01T00:00:00Z" "192.168.0.100" "R500" 0
          (Json.obj [("temperature_celsius", Json.num 42)])) := by
  have h := C7_telemetry_roundtrip
    (Env.mk 3 "2025-01-01T00:00:00Z" (PlcNet.mk true true RecvOutcome.timedOut) true true)
    "192.168.0.100" "R500" (MasterState.mk [] [])
    "SMART \x7b\"temperature_celsius\": 42\x7d"
    (Json.obj [("temperature_celsius", Json.num 42)]) (by rfl) (by rfl) (by rfl)
  exact ⟨h.1, h.2.1⟩

/-- C9: the unsynchronized read-then-write increment
`reset_counts[relay] = reset_counts.get(relay, 0) + 1` (master lines 156 and
207) loses an update under the interleaving read₀, read₁, write₀, write₁: two
concurrent successful actuations starting from counter 0 can end at 1, not the
claimed 0 + 2, while the serialized schedule does reach 2. -/
theorem C9_unsynchronized_increment_race :
    raceRun 0 [ThreadPhase.toRead, ThreadPhase.toRead] [0, 1, 0, 1] = 1
    ∧ raceRun 0 [ThreadPhase.toRead, ThreadPhase.toRead] [0, 0, 1, 1] = 2
    ∧ (1 : Nat) ≠ 0 + 2 := ⟨rfl, rfl, by decide⟩

/-- C10: a received line that is empty or whitespace-only after decoding
causes no state change at all — no last-seen update, no events; and a
non-empty line is classified exactly as its whitespace-stripped text. -/
theorem C10_blank_lines_ignored (env : Env) (ip : String) (st : MasterState) (raw : String) :
    (pyStrip raw = "" → processLine env ip st raw = (st, []))
    ∧ processLine env ip st raw = processLine env ip st (pyStrip raw) := by
  constructor
  · exact processLine_blank env ip st raw
  · unfold processLine
    rw [pyStrip_idem]

/-- Witness for C10: a whitespace-only line changes nothing, and a padded
heartbeat is handled exactly like its stripped form. -/
theorem C10_witness :
    processLine (Env.mk 4 "t" (PlcNet.mk true true RecvOutcome.timedOut) true true)
      "192.168.0.100" (MasterState.mk [] []) " \t "
      = (MasterState.mk [] [], [])
    ∧ processLine (Env.mk 4 "t" (PlcNet.mk true true RecvOutcome.timedOut) true true)
        "192.168.0.100" (MasterState.mk [] []) " HB "
      = processLine (Env.mk 4 "t" (PlcNet.mk true true RecvOutcome.timedOut) true true)
          "192.168.0.100" (MasterState.mk [] []) "HB" := by
  constructor
  · exact (C10_blank_lines_ignored
      (Env.mk 4 "t" (PlcNet.mk true true RecvOutcome.timedOut) true true)
      "192.168.0.100" (MasterState.mk [] []) " \t ").1 (by rfl)
  · exact (C10_blank_lines_ignored
      (Env.mk 4 "t" (PlcNet.mk true true RecvOutcome.timedOut) true true)
      "192.168.0.100" (MasterState.mk [] []) " HB ").2

end FRT
